import Mathlib

/-!
Verification of the workspace synchronization and reconciliation engine of the
Arc-styled bookmark-workspace browser extension.

The engine lives in `workspace-service.js` (`WorkspaceService`).  Workspace
records replicate through a last-write-wins key-value store (one item per
workspace plus a `ws_meta` order item), while bookmark folder ids are strictly
device-local and must be re-derived by reconciliation.  This file gives a
shallow embedding of the relevant operations — order merging, reorder, delete,
the v1→v2 migration, shortcut management, folder and pinned-item
reconciliation, orphan-folder adoption and the emoji folder-title encoding —
and proves or refutes the specified properties about them.

External effects (replicated writes, local writes, bookmark-tree mutations)
are modelled as explicit write-operation logs; the browser bookmark store is
modelled as a flat list of nodes with parent links; the Unicode emoji
character classes referenced by the title regex are parameters of the
embedding, since they are environment data, not program text.
-/

namespace ArcSpaces

/-- One `{url, title}` shortcut entry of a workspace record. -/
structure Shortcut where
  url : String
  title : String
deriving DecidableEq, Repr

/-- One `{id, url?, title?}` pinned-bookmark metadata entry of a workspace record. -/
structure PinMeta where
  id : String
  url : Option String := none
  title : Option String := none
deriving DecidableEq, Repr

/-- A workspace record as held in memory by the engine (`this._items[id]`).
`rootFolderId` and `pinnedBookmarkIds` are the device-local fields that are
stripped before any replicated write. -/
structure WsRec where
  id : String := ""
  name : String := ""
  emoji : String := ""
  icon : String := ""
  color : String := ""
  colorScheme : String := ""
  pinnedBookmarks : List PinMeta := []
  shortcuts : List Shortcut := []
  created : Nat := 0
  rootFolderId : Option String := none
  pinnedBookmarkIds : Option (List String) := none
deriving DecidableEq, Repr

/-- Device-local engine state (`this._localState`): active workspace and the
per-workspace bookmark folder-id map.  Map values are optional because the
source assigns whatever the record holds, which may be absent. -/
structure LocalState where
  activeWorkspaceId : Option String := none
  rootFolderIds : List (String × Option String) := []
deriving DecidableEq, Repr

/-- An external write performed by the engine: replicated item/meta writes and
deletes, local-state writes, the legacy-key delete, and bookmark-tree removal. -/
inductive WriteOp where
  | saveItem (wsId : String) (item : WsRec)
  | saveMeta (order : List String) (version : Nat)
  | deleteItem (wsId : String)
  | saveLocal (st : LocalState)
  | deleteOldKey
  | removeTree (folderId : Option String)
deriving DecidableEq, Repr

/-! ## Order merging (`WorkspaceService._mergeOrders`) -/

/-- Loop body of `_mergeOrders`: walk `secondary`, appending each id not yet
seen.  `seen` models the JS `Set` (membership only); `merged` is the growing
output array. -/
def mergeGo (seen merged : List String) : List String → List String
  | [] => merged
  | x :: rest =>
    if x ∈ seen then mergeGo seen merged rest
    else mergeGo (x :: seen) (merged ++ [x]) rest

/-- `WorkspaceService._mergeOrders(primary, secondary)`: keep `primary`'s
order and append the ids of `secondary` that are not already present. -/
def mergeOrders (primary secondary : List String) : List String :=
  mergeGo primary primary secondary

theorem mem_mergeGo (rest : List String) (seen merged : List String) (x : String) :
    x ∈ mergeGo seen merged rest ↔ x ∈ merged ∨ (x ∈ rest ∧ x ∉ seen) := by
  induction rest generalizing seen merged with
  | nil => simp [mergeGo]
  | cons a rest ih =>
    by_cases h : a ∈ seen
    · rw [mergeGo, if_pos h, ih]
      constructor
      · rintro (hm | ⟨hr, hs⟩)
        · exact Or.inl hm
        · exact Or.inr ⟨List.mem_cons_of_mem _ hr, hs⟩
      · rintro (hm | ⟨hr, hs⟩)
        · exact Or.inl hm
        · rcases List.mem_cons.mp hr with rfl | hr'
          · exact absurd h hs
          · exact Or.inr ⟨hr', hs⟩
    · rw [mergeGo, if_neg h, ih]
      constructor
      · rintro (hm | ⟨hr, hs⟩)
        · rcases List.mem_append.mp hm with hm' | hm'
          · exact Or.inl hm'
          · have hxa : x = a := by simpa using hm'
            subst hxa
            exact Or.inr ⟨List.mem_cons_self _ _, h⟩
        · exact Or.inr ⟨List.mem_cons_of_mem _ hr,
            fun hx => hs (List.mem_cons_of_mem _ hx)⟩
      · rintro (hm | ⟨hr, hs⟩)
        · exact Or.inl (List.mem_append.mpr (Or.inl hm))
        · rcases List.mem_cons.mp hr with rfl | hr'
          · exact Or.inl (List.mem_append.mpr (Or.inr (by simp)))
          · by_cases hxa : x = a
            · subst hxa
              exact Or.inl (List.mem_append.mpr (Or.inr (by simp)))
            · refine Or.inr ⟨hr', fun hx => ?_⟩
              rcases List.mem_cons.mp hx with h1 | h2
              · exact absurd h1 hxa
              · exact absurd h2 hs

theorem mergeGo_append (rest : List String) (seen merged : List String) :
    ∃ r, mergeGo seen merged rest = merged ++ r := by
  induction rest generalizing seen merged with
  | nil => exact ⟨[], by simp [mergeGo]⟩
  | cons a rest ih =>
    by_cases h : a ∈ seen
    · rw [mergeGo, if_pos h]; exact ih seen merged
    · rw [mergeGo, if_neg h]
      obtain ⟨r, hr⟩ := ih (a :: seen) (merged ++ [a])
      exact ⟨[a] ++ r, by rw [hr, List.append_assoc]⟩

theorem mergeGo_of_subset (rest : List String) (seen merged : List String)
    (h : ∀ x ∈ rest, x ∈ seen) : mergeGo seen merged rest = merged := by
  induction rest with
  | nil => rfl
  | cons a rest ih =>
    rw [mergeGo, if_pos (h a (List.mem_cons_self a rest))]
    exact ih fun x hx => h x (List.mem_cons_of_mem _ hx)

theorem mem_mergeOrders (A B : List String) (x : String) :
    x ∈ mergeOrders A B ↔ x ∈ A ∨ x ∈ B := by
  rw [mergeOrders, mem_mergeGo]
  constructor
  · rintro (h | ⟨h, _⟩)
    · exact Or.inl h
    · exact Or.inr h
  · rintro (h | h)
    · exact Or.inl h
    · by_cases hA : x ∈ A
      · exact Or.inl hA
      · exact Or.inr ⟨h, hA⟩

/-- C1: for any two device orders `A`, `B`, the order merge contains every id
of `A` and of `B` (a superset of both), keeps `A`'s elements in their
relative order (the result starts with `A` itself), and is idempotent:
`merge(merge(A, B), B) = merge(A, B)`. -/
theorem mergeOrders_superset_prefix_idem (A B : List String) :
    (∀ x ∈ A, x ∈ mergeOrders A B) ∧
    (∀ x ∈ B, x ∈ mergeOrders A B) ∧
    (∃ rest, mergeOrders A B = A ++ rest) ∧
    mergeOrders (mergeOrders A B) B = mergeOrders A B := by
  refine ⟨fun x hx => (mem_mergeOrders A B x).mpr (Or.inl hx),
    fun x hx => (mem_mergeOrders A B x).mpr (Or.inr hx),
    mergeGo_append B A A, ?_⟩
  exact mergeGo_of_subset B _ _ fun x hx => (mem_mergeOrders A B x).mpr (Or.inr hx)

/-- C1 witness: the merge properties evaluated on the concrete orders
`["a", "b"]` and `["b", "c"]`. -/
theorem mergeOrders_superset_prefix_idem_witness :
    "a" ∈ mergeOrders ["a", "b"] ["b", "c"] ∧
    "c" ∈ mergeOrders ["a", "b"] ["b", "c"] ∧
    (∃ rest, mergeOrders ["a", "b"] ["b", "c"] = ["a", "b"] ++ rest) ∧
    mergeOrders (mergeOrders ["a", "b"] ["b", "c"]) ["b", "c"] =
      mergeOrders ["a", "b"] ["b", "c"] := by
  obtain ⟨h1, h2, h3, h4⟩ := mergeOrders_superset_prefix_idem ["a", "b"] ["b", "c"]
  exact ⟨h1 "a" (by decide), h2 "c" (by decide), h3, h4⟩

/-! ## Meta writes and reorder (`_saveMeta`, `reorder`) -/

/-- `WorkspaceService._saveMeta({skipMerge})`: unless `skipMerge`, re-read the
remote `ws_meta` order and merge it into the in-memory order, then write the
result with `version 2`.  `remote` is the replicated order at write time
(`none` when the read degrades to empty or no meta item exists). -/
def saveMetaModel (order : List String) (remote : Option (List String))
    (skipMerge : Bool) : List String × WriteOp :=
  let newOrder :=
    if skipMerge then order
    else
      match remote with
      | some remoteOrder => mergeOrders order remoteOrder
      | none => order
  (newOrder, WriteOp.saveMeta newOrder 2)

/-- `WorkspaceService.reorder(newOrder)`: reject a `newOrder` whose length
differs from the current order or that mentions an unknown id; otherwise
replace the order and persist it through the merging `_saveMeta`.  Returns the
resulting in-memory order and the writes performed. -/
def reorderModel (order newOrder : List String) (remote : Option (List String)) :
    List String × List WriteOp :=
  if newOrder.length ≠ order.length then (order, [])
  else if ¬ (∀ x ∈ newOrder, x ∈ order) then (order, [])
  else
    let saved := saveMetaModel newOrder remote false
    (saved.1, [saved.2])

/-- C9 counterexample: with current order `["a", "b"]`, the argument
`["a", "a"]` passes both validation checks (same length, every id known), so
the call is not a no-op and the id `"b"` is removed from the engine's order
(the remote meta read degrades to empty here, so the merge restores nothing). -/
theorem reorder_duplicate_drops_id :
    "b" ∈ ["a", "b"] ∧
    "b" ∉ (reorderModel ["a", "b"] ["a", "a"] none).1 ∧
    (reorderModel ["a", "b"] ["a", "a"] none).1 ≠ ["a", "b"] := by decide

/-- C9 (amended): when `newOrder` contains no duplicate ids, `reorder` never
removes a workspace — every id of the current order is still in the order
afterwards — and only adds ids that come from the remote order merged back in
by `_saveMeta`; the call is a no-op (no write) whenever `newOrder`'s length
differs from the current order's or `newOrder` mentions an unknown id. -/
theorem reorder_nodup_preserves_ids (order newOrder : List String)
    (remote : Option (List String)) (hnd : newOrder.Nodup) :
    (∀ x ∈ order, x ∈ (reorderModel order newOrder remote).1) ∧
    (∀ x ∈ (reorderModel order newOrder remote).1, x ∈ order ∨ x ∈ remote.getD []) ∧
    ((newOrder.length ≠ order.length ∨ ∃ x ∈ newOrder, x ∉ order) →
      reorderModel order newOrder remote = (order, [])) := by
  by_cases hlen : newOrder.length ≠ order.length
  · rw [reorderModel, if_pos hlen]
    exact ⟨fun x hx => hx, fun x hx => Or.inl hx, fun _ => rfl⟩
  · by_cases hmem : ∀ x ∈ newOrder, x ∈ order
    · rw [reorderModel, if_neg hlen, if_neg (by simpa using hmem)]
      push_neg at hlen
      -- a duplicate-free list of the same length covering `order` has the same ids
      have hsub : ∀ x ∈ order, x ∈ newOrder := by
        intro x hx
        have h1 : newOrder.toFinset ⊆ order.toFinset := by
          intro y hy
          exact List.mem_toFinset.mpr (hmem y (List.mem_toFinset.mp hy))
        have h2 : order.toFinset.card ≤ newOrder.toFinset.card := by
          calc order.toFinset.card ≤ order.length := order.toFinset_card_le
            _ = newOrder.length := hlen.symm
            _ = newOrder.toFinset.card := (List.toFinset_card_of_nodup hnd).symm
        have := Finset.eq_of_subset_of_card_le h1 h2
        exact List.mem_toFinset.mp (this ▸ List.mem_toFinset.mpr hx)
      refine ⟨?_, ?_, ?_⟩
      · intro x hx
        rcases remote with _ | remoteOrder
        · exact hsub x hx
        · exact (mem_mergeOrders _ _ x).mpr (Or.inl (hsub x hx))
      · intro x hx
        rcases remote with _ | remoteOrder
        · exact Or.inl (hmem x hx)
        · rcases (mem_mergeOrders _ _ x).mp hx with h | h
          · exact Or.inl (hmem x h)
          · exact Or.inr h
      · rintro (h | ⟨x, hx, hnx⟩)
        · exact absurd hlen h
        · exact absurd (hmem x hx) hnx
    · rw [reorderModel, if_neg hlen, if_pos (by simpa using hmem)]
      exact ⟨fun x hx => hx, fun x hx => Or.inl hx, fun _ => rfl⟩

/-- C9 witness: the amended reorder property evaluated on the permutation
`["b", "a"]` of `["a", "b"]` with a remote order `["a", "c"]`. -/
theorem reorder_nodup_preserves_ids_witness :
    "b" ∈ (reorderModel ["a", "b"] ["b", "a"] (some ["a", "c"])).1 ∧
    ("c" ∈ ["a", "b"] ∨ "c" ∈ (some ["a", "c"] : Option (List String)).getD []) ∧
    reorderModel ["a", "b"] ["x", "y", "z"] (some ["a", "c"]) = (["a", "b"], []) := by
  obtain ⟨h1, h2, _⟩ :=
    reorder_nodup_preserves_ids ["a", "b"] ["b", "a"] (some ["a", "c"]) (by decide)
  obtain ⟨_, _, h3⟩ :=
    reorder_nodup_preserves_ids ["a", "b"] ["x", "y", "z"] (some ["a", "c"]) (by decide)
  exact ⟨h1 "b" (by decide), h2 "c" (by decide), h3 (Or.inl (by decide))⟩

/-! ## Deletion (`WorkspaceService.delete`) -/

/-- In-memory engine state relevant to CRUD: the order array, the item map and
the device-local state. -/
structure EngineState where
  order : List String
  items : List (String × WsRec)
  localState : LocalState
deriving DecidableEq, Repr

/-- `WorkspaceService.delete(workspaceId)`: a guarded removal.  The last
remaining workspace cannot be deleted (`order.length <= 1` returns
immediately, before any lookup or write); an unknown id is also a no-op.
Otherwise the bookmark subtree is removed, the item map, order and local
folder map are purged of the id, the active workspace is moved off the deleted
id, the replicated item is deleted and the meta is saved with `skipMerge` so
the remote order (which may still contain the id) is never merged back. -/
def deleteModel (st : EngineState) (workspaceId : String)
    (remote : Option (List String)) : EngineState × List WriteOp :=
  if st.order.length ≤ 1 then (st, [])
  else
    match st.items.lookup workspaceId with
    | none => (st, [])
    | some ws =>
      let newOrder := st.order.filter (fun x => x ≠ workspaceId)
      let newRootIds := st.localState.rootFolderIds.filter (fun p => p.1 ≠ workspaceId)
      let newActive :=
        if st.localState.activeWorkspaceId = some workspaceId then newOrder.head?
        else st.localState.activeWorkspaceId
      let newLocal : LocalState :=
        { activeWorkspaceId := newActive, rootFolderIds := newRootIds }
      let saved := saveMetaModel newOrder remote true
      ({ order := saved.1,
         items := st.items.filter (fun p => p.1 ≠ workspaceId),
         localState := newLocal },
       [WriteOp.removeTree ws.rootFolderId, WriteOp.deleteItem workspaceId,
        saved.2, WriteOp.saveLocal newLocal])

/-- C2: with exactly one workspace left in the order, `delete` is a no-op for
every id: the state (hence workspace count) is unchanged and no write, delete
or bookmark-tree removal happens at all. -/
theorem delete_sole_workspace_noop (st : EngineState) (workspaceId : String)
    (remote : Option (List String)) (h : st.order.length = 1) :
    deleteModel st workspaceId remote = (st, []) := by
  rw [deleteModel, if_pos (by omega)]

/-- C2 witness: deleting the only workspace of a concrete one-workspace state
changes nothing and writes nothing. -/
theorem delete_sole_workspace_noop_witness :
    deleteModel
      { order := ["ws_default"],
        items := [("ws_default", { id := "ws_default", name := "Personal" })],
        localState := { activeWorkspaceId := some "ws_default",
                        rootFolderIds := [("ws_default", some "f1")] } }
      "ws_default" (some ["ws_default"]) =
      ({ order := ["ws_default"],
         items := [("ws_default", { id := "ws_default", name := "Personal" })],
         localState := { activeWorkspaceId := some "ws_default",
                         rootFolderIds := [("ws_default", some "f1")] } }, []) :=
  delete_sole_workspace_noop _ _ _ (by decide)

/-- C3: with at least two workspaces and a resolvable id, `delete` writes a
meta order that no longer contains the deleted id — and because the save skips
the merge, this holds for every remote order, in particular one that still
contains the id (the id is never resurrected). -/
theorem delete_never_resurrects_id (st : EngineState) (workspaceId : String)
    (remote : Option (List String)) (ws : WsRec)
    (h2 : 2 ≤ st.order.length) (hws : st.items.lookup workspaceId = some ws) :
    (deleteModel st workspaceId remote).1.order =
      st.order.filter (fun x => x ≠ workspaceId) ∧
    workspaceId ∉ (deleteModel st workspaceId remote).1.order ∧
    (∀ o v, WriteOp.saveMeta o v ∈ (deleteModel st workspaceId remote).2 →
      o = st.order.filter (fun x => x ≠ workspaceId) ∧ workspaceId ∉ o) ∧
    WriteOp.saveMeta (st.order.filter (fun x => x ≠ workspaceId)) 2 ∈
      (deleteModel st workspaceId remote).2 := by
  have hnotmem : workspaceId ∉ st.order.filter (fun x => x ≠ workspaceId) := by
    intro hmem
    have := (List.mem_filter.mp hmem).2
    simp at this
  rw [deleteModel, if_neg (by omega), hws]
  refine ⟨rfl, hnotmem, ?_, by simp [saveMetaModel]⟩
  intro o v hop
  simp only [saveMetaModel, List.mem_cons, List.not_mem_nil, or_false] at hop
  rcases hop with h | h | h | h
  · exact absurd h (by simp)
  · exact absurd h (by simp)
  · obtain ⟨ho, _⟩ := WriteOp.saveMeta.inj h
    exact ⟨ho, ho ▸ hnotmem⟩
  · exact absurd h (by simp)

/-- C3 witness: deleting `"ws2"` from a two-workspace state while the remote
order still contains `"ws2"` writes a meta order without `"ws2"`. -/
theorem delete_never_resurrects_id_witness :
    (deleteModel
        { order := ["ws1", "ws2"],
          items := [("ws1", { id := "ws1" }), ("ws2", { id := "ws2" })],
          localState := { activeWorkspaceId := some "ws2",
                          rootFolderIds := [("ws1", some "f1"), ("ws2", some "f2")] } }
        "ws2" (some ["ws1", "ws2"])).1.order = ["ws1"] ∧
    WriteOp.saveMeta ["ws1"] 2 ∈
      (deleteModel
        { order := ["ws1", "ws2"],
          items := [("ws1", { id := "ws1" }), ("ws2", { id := "ws2" })],
          localState := { activeWorkspaceId := some "ws2",
                          rootFolderIds := [("ws1", some "f1"), ("ws2", some "f2")] } }
        "ws2" (some ["ws1", "ws2"])).2 := by
  obtain ⟨h1, _, _, h4⟩ :=
    delete_never_resurrects_id
      { order := ["ws1", "ws2"],
        items := [("ws1", { id := "ws1" }), ("ws2", { id := "ws2" })],
        localState := { activeWorkspaceId := some "ws2",
                        rootFolderIds := [("ws1", some "f1"), ("ws2", some "f2")] } }
      "ws2" (some ["ws1", "ws2"]) { id := "ws2" } (by decide) (by decide)
  refine ⟨?_, ?_⟩
  · rw [h1]; decide
  · have : (["ws1", "ws2"].filter (fun x => x ≠ "ws2")) = ["ws1"] := by decide
    exact this ▸ h4

/-! ## Shortcuts (`WorkspaceService.addShortcut`) -/

/-- `WorkspaceService.addShortcut(url, title)` on the active workspace's
shortcut list: duplicates by url are rejected first, then the cap of 8 entries
is enforced, otherwise the new entry is appended. -/
def addShortcut (shortcuts : List Shortcut) (url title : String) : List Shortcut :=
  if shortcuts.any (fun s => s.url = url) then shortcuts
  else if 8 ≤ shortcuts.length then shortcuts
  else shortcuts ++ [{ url := url, title := title }]

/-- C8: `addShortcut` preserves the shortcut-list invariant (length at most 8,
urls pairwise distinct); a list already holding 8 entries stays at 8 entries;
and adding an already-present url leaves the list unchanged. -/
theorem addShortcut_cap_and_dedup (shortcuts : List Shortcut) (url title : String) :
    (shortcuts.length ≤ 8 → (addShortcut shortcuts url title).length ≤ 8) ∧
    ((shortcuts.map Shortcut.url).Nodup →
      ((addShortcut shortcuts url title).map Shortcut.url).Nodup) ∧
    (shortcuts.length = 8 → (addShortcut shortcuts url title).length = 8) ∧
    (url ∈ shortcuts.map Shortcut.url → addShortcut shortcuts url title = shortcuts) := by
  by_cases hdup : shortcuts.any (fun s => s.url = url)
  · rw [addShortcut, if_pos hdup]
    exact ⟨fun h => h, fun h => h, fun h => h, fun _ => rfl⟩
  · by_cases hcap : 8 ≤ shortcuts.length
    · rw [addShortcut, if_neg hdup, if_pos hcap]
      exact ⟨fun h => h, fun h => h, fun h => h, fun _ => rfl⟩
    · rw [addShortcut, if_neg hdup, if_neg hcap]
      push_neg at hcap
      have hurl : url ∉ shortcuts.map Shortcut.url := by
        intro hmem
        obtain ⟨s, hs, hsu⟩ := List.mem_map.mp hmem
        exact hdup (List.any_eq_true.mpr ⟨s, hs, by simp [hsu]⟩)
      refine ⟨fun _ => by simp; omega, ?_, fun h => by omega, fun h => absurd h hurl⟩
      intro hnd
      rw [List.map_append]
      simp only [List.map_cons, List.map_nil]
      rw [List.nodup_append]
      exact ⟨hnd, List.nodup_singleton url, by
        intro a ha hb
        have : a = url := by simpa using hb
        exact hurl (this ▸ ha)⟩

/-- C8 witness: the cap and deduplication evaluated on a concrete full list
and a concrete duplicate url. -/
theorem addShortcut_cap_and_dedup_witness :
    (addShortcut
      [⟨"u1", ""⟩, ⟨"u2", ""⟩, ⟨"u3", ""⟩, ⟨"u4", ""⟩,
       ⟨"u5", ""⟩, ⟨"u6", ""⟩, ⟨"u7", ""⟩, ⟨"u8", ""⟩] "u9" "nine").length = 8 ∧
    addShortcut [⟨"u1", "one"⟩, ⟨"u2", "two"⟩] "u1" "again" =
      [⟨"u1", "one"⟩, ⟨"u2", "two"⟩] ∧
    ((addShortcut [⟨"u1", "one"⟩, ⟨"u2", "two"⟩] "u3" "three").map Shortcut.url).Nodup := by
  obtain ⟨_, _, h3, _⟩ :=
    addShortcut_cap_and_dedup
      [⟨"u1", ""⟩, ⟨"u2", ""⟩, ⟨"u3", ""⟩, ⟨"u4", ""⟩,
       ⟨"u5", ""⟩, ⟨"u6", ""⟩, ⟨"u7", ""⟩, ⟨"u8", ""⟩] "u9" "nine"
  obtain ⟨_, _, _, h4⟩ :=
    addShortcut_cap_and_dedup [⟨"u1", "one"⟩, ⟨"u2", "two"⟩] "u1" "again"
  obtain ⟨_, h2, _, _⟩ :=
    addShortcut_cap_and_dedup [⟨"u1", "one"⟩, ⟨"u2", "two"⟩] "u3" "three"
  exact ⟨h3 (by decide), h4 (by decide), h2 (by decide)⟩

/-! ## Migration (`WorkspaceService._migrateV1toV2`) -/

/-- `WorkspaceService._syncableItem(data)`: a copy with the device-local
fields (`rootFolderId`, `pinnedBookmarkIds`) stripped before a sync write. -/
def syncableItem (ws : WsRec) : WsRec :=
  { ws with rootFolderId := none, pinnedBookmarkIds := none }

/-- The legacy v1 single-item value `{activeWorkspaceId, order, items}`. -/
structure V1Data where
  activeWorkspaceId : Option String := none
  order : List String := []
  items : List (String × WsRec) := []
deriving DecidableEq, Repr

/-- Result of the migration: the new in-memory state plus the write log. -/
structure MigrateResult where
  order : List String
  items : List (String × WsRec)
  localState : LocalState
  log : List WriteOp
deriving DecidableEq, Repr

/-- Loop body of `_migrateV1toV2` for one workspace id: skip ids with no
record, otherwise extract the folder id into the local map, keep the stripped
record in memory and write it as its own replicated item. -/
def migrateStep (oldItems : List (String × WsRec))
    (acc : List (String × WsRec) × List (String × Option String) × List WriteOp)
    (wsId : String) :
    List (String × WsRec) × List (String × Option String) × List WriteOp :=
  match oldItems.lookup wsId with
  | none => acc
  | some ws =>
    (acc.1 ++ [(wsId, syncableItem ws)],
     acc.2.1 ++ [(wsId, ws.rootFolderId)],
     acc.2.2 ++ [WriteOp.saveItem wsId (syncableItem ws)])

/-- `WorkspaceService._migrateV1toV2(oldData)`: write each workspace as its
own replicated item (stripped of local fields), write the order item with
`version 2`, build and write the local device state holding the extracted
folder ids, then delete the legacy single item. -/
def migrateV1toV2 (oldData : V1Data) : MigrateResult :=
  let folded := oldData.order.foldl (migrateStep oldData.items) ([], [], [])
  let localState : LocalState :=
    { activeWorkspaceId :=
        match oldData.activeWorkspaceId with
        | some a => some a
        | none => oldData.order.head?,
      rootFolderIds := folded.2.1 }
  { order := oldData.order,
    items := folded.1,
    localState := localState,
    log := folded.2.2 ++
      [WriteOp.saveMeta oldData.order 2, WriteOp.saveLocal localState,
       WriteOp.deleteOldKey] }

theorem migrate_foldl_characterization (oldItems : List (String × WsRec))
    (order : List String)
    (a : List (String × WsRec)) (b : List (String × Option String))
    (c : List WriteOp) :
    order.foldl (migrateStep oldItems) (a, b, c) =
      (a ++ order.filterMap
        (fun wsId => (oldItems.lookup wsId).map (fun ws => (wsId, syncableItem ws))),
       b ++ order.filterMap
        (fun wsId => (oldItems.lookup wsId).map (fun ws => (wsId, ws.rootFolderId))),
       c ++ order.filterMap
        (fun wsId => (oldItems.lookup wsId).map
          (fun ws => WriteOp.saveItem wsId (syncableItem ws)))) := by
  induction order generalizing a b c with
  | nil => simp
  | cons x rest ih =>
    rw [List.foldl_cons, migrateStep]
    cases hx : oldItems.lookup x with
    | none => simp [ih, List.filterMap_cons, hx]
    | some ws => simp [ih, List.filterMap_cons, hx]

/-- Key of a replicated per-workspace item write, if the op is one. -/
def itemKeyOf : WriteOp → Option String
  | WriteOp.saveItem wsId _ => some wsId
  | _ => none

/-- Payload of a replicated order-item write, if the op is one. -/
def metaOf : WriteOp → Option (List String × Nat)
  | WriteOp.saveMeta order version => some (order, version)
  | _ => none

theorem filterMap_itemKeyOf (oldItems : List (String × WsRec)) (order : List String)
    (hall : ∀ wsId ∈ order, (oldItems.lookup wsId).isSome) :
    (order.filterMap
      (fun wsId => (oldItems.lookup wsId).map
        (fun ws => WriteOp.saveItem wsId (syncableItem ws)))).filterMap itemKeyOf =
      order := by
  induction order with
  | nil => rfl
  | cons x rest ih =>
    rw [List.filterMap_cons]
    cases hx : oldItems.lookup x with
    | none =>
      exact absurd (hx ▸ hall x (List.mem_cons_self x rest)) (by simp)
    | some ws =>
      simp only [Option.map_some']
      rw [List.filterMap_cons]
      simp only [itemKeyOf]
      rw [ih fun wsId hmem => hall wsId (List.mem_cons_of_mem _ hmem)]

theorem lookup_filterMap_rootIds (oldItems : List (String × WsRec))
    (order : List String) (wsId : String) (ws : WsRec)
    (hws : oldItems.lookup wsId = some ws) (hmem : wsId ∈ order) :
    (order.filterMap
      (fun i => (oldItems.lookup i).map (fun w => (i, w.rootFolderId)))).lookup wsId =
      some ws.rootFolderId := by
  induction order with
  | nil => cases hmem
  | cons x rest ih =>
    rw [List.filterMap_cons]
    by_cases hx : wsId = x
    · subst hx
      rw [hws]
      simp [List.lookup]
    · cases hlx : oldItems.lookup x with
      | none =>
        exact ih (List.mem_of_ne_of_mem hx hmem)
      | some w =>
        simp only [Option.map_some']
        rw [List.lookup_cons]
        have : (wsId == x) = false := by simpa using hx
        rw [this]
        exact ih (List.mem_of_ne_of_mem hx hmem)

/-- C6: migrating a legacy single-item store whose order lists N resolvable
workspaces writes exactly those N per-workspace items (the written keys are
exactly the order, so there are N of them), each stripped of the local folder
id; writes exactly one order item, with `version 2` and the same order; maps
every workspace id to its extracted folder id in the new local device state;
and deletes the legacy item. -/
theorem migrate_v1_to_v2_splits (oldData : V1Data)
    (hall : ∀ wsId ∈ oldData.order, (oldData.items.lookup wsId).isSome) :
    ((migrateV1toV2 oldData).log.filterMap itemKeyOf = oldData.order) ∧
    (∀ wsId item, WriteOp.saveItem wsId item ∈ (migrateV1toV2 oldData).log →
      item.rootFolderId = none ∧ item.pinnedBookmarkIds = none) ∧
    ((migrateV1toV2 oldData).log.filterMap metaOf = [(oldData.order, 2)]) ∧
    (∀ wsId ws, oldData.items.lookup wsId = some ws → wsId ∈ oldData.order →
      (migrateV1toV2 oldData).localState.rootFolderIds.lookup wsId =
        some ws.rootFolderId) ∧
    WriteOp.deleteOldKey ∈ (migrateV1toV2 oldData).log := by
  have hfold := migrate_foldl_characterization oldData.items oldData.order [] [] []
  have hlog : (migrateV1toV2 oldData).log =
      oldData.order.filterMap
        (fun wsId => (oldData.items.lookup wsId).map
          (fun ws => WriteOp.saveItem wsId (syncableItem ws))) ++
      [WriteOp.saveMeta oldData.order 2,
       WriteOp.saveLocal (migrateV1toV2 oldData).localState,
       WriteOp.deleteOldKey] := by
    simp [migrateV1toV2, hfold]
  have hroot : (migrateV1toV2 oldData).localState.rootFolderIds =
      oldData.order.filterMap
        (fun i => (oldData.items.lookup i).map (fun w => (i, w.rootFolderId))) := by
    simp [migrateV1toV2, hfold]
  refine ⟨?_, ?_, ?_, ?_, ?_⟩
  · rw [hlog, List.filterMap_append, filterMap_itemKeyOf oldData.items oldData.order hall]
    simp [itemKeyOf]
  · intro wsId item hmem
    rw [hlog] at hmem
    rcases List.mem_append.mp hmem with hmem | hmem
    · obtain ⟨i, _, hi⟩ := List.mem_filterMap.mp hmem
      cases hli : oldData.items.lookup i with
      | none => rw [hli] at hi; cases hi
      | some ws =>
        rw [hli] at hi
        obtain ⟨-, hitem⟩ := WriteOp.saveItem.inj (Option.some.inj hi)
        rw [← hitem]
        exact ⟨rfl, rfl⟩
    · simp at hmem
  · rw [hlog, List.filterMap_append]
    have hleft : (oldData.order.filterMap
        (fun wsId => (oldData.items.lookup wsId).map
          (fun ws => WriteOp.saveItem wsId (syncableItem ws)))).filterMap metaOf = [] := by
      rw [List.filterMap_eq_nil_iff]
      intro op hop
      obtain ⟨i, _, hi⟩ := List.mem_filterMap.mp hop
      cases hli : oldData.items.lookup i with
      | none => rw [hli] at hi; cases hi
      | some ws =>
        rw [hli] at hi
        rw [← Option.some.inj hi]
        rfl
    rw [hleft]
    simp [metaOf]
  · intro wsId ws hws hmem
    rw [hroot]
    exact lookup_filterMap_rootIds oldData.items oldData.order wsId ws hws hmem
  · rw [hlog]
    simp

/-- C6 witness: a concrete legacy store with two workspaces migrates to two
split item writes, one `version 2` order write and a local folder-id map. -/
theorem migrate_v1_to_v2_splits_witness :
    ((migrateV1toV2
        { activeWorkspaceId := some "w1",
          order := ["w1", "w2"],
          items := [("w1", { id := "w1", rootFolderId := some "f1" }),
                    ("w2", { id := "w2", rootFolderId := some "f2" })] }).log.filterMap
      itemKeyOf = ["w1", "w2"]) ∧
    ((migrateV1toV2
        { activeWorkspaceId := some "w1",
          order := ["w1", "w2"],
          items := [("w1", { id := "w1", rootFolderId := some "f1" }),
                    ("w2", { id := "w2", rootFolderId := some "f2" })] }).log.filterMap
      metaOf = [(["w1", "w2"], 2)]) ∧
    ((migrateV1toV2
        { activeWorkspaceId := some "w1",
          order := ["w1", "w2"],
          items := [("w1", { id := "w1", rootFolderId := some "f1" }),
                    ("w2", { id := "w2", rootFolderId := some "f2" })] }).localState.rootFolderIds.lookup
      "w2" = some (some "f2")) ∧
    WriteOp.deleteOldKey ∈
      (migrateV1toV2
        { activeWorkspaceId := some "w1",
          order := ["w1", "w2"],
          items := [("w1", { id := "w1", rootFolderId := some "f1" }),
                    ("w2", { id := "w2", rootFolderId := some "f2" })] }).log := by
  obtain ⟨h1, _, h3, h4, h5⟩ :=
    migrate_v1_to_v2_splits
      { activeWorkspaceId := some "w1",
        order := ["w1", "w2"],
        items := [("w1", { id := "w1", rootFolderId := some "f1" }),
                  ("w2", { id := "w2", rootFolderId := some "f2" })] }
      (by decide)
  exact ⟨h1, h3, h4 "w2" { id := "w2", rootFolderId := some "f2" } (by decide) (by decide), h5⟩

/-! ## Emoji folder-title encoding (`EMOJI_PREFIX_RE`, `extractEmojiPrefix`,
`buildFolderTitle`)

The title regex is
`^(\p{Emoji_Presentation}|\p{Emoji}️)(‍(\p{Emoji_Presentation}|\p{Emoji}️))*\s`.
The two Unicode character classes are environment data (the Unicode tables),
so the embedding is parameterized by them; the matcher below implements the
regex with JavaScript backtracking semantics (alternatives tried left to
right, the star greedy). -/

/-- The zero-width joiner `‍` of the regex. -/
def zwjChar : Char := '‍'

/-- The variation selector `️` of the regex. -/
def vs16Char : Char := '️'

/-- JavaScript's `\s` class (which also equals the set trimmed by
`String.prototype.trimEnd`). -/
def isJsSpace (c : Char) : Bool :=
  c == '\x09' || c == '\x0A' || c == '\x0B' || c == '\x0C' || c == '\x0D' ||
  c == ' ' || c == ' ' || c == ' ' ||
  (0x2000 ≤ c.toNat && c.toNat ≤ 0x200A) ||
  c == ' ' || c == ' ' || c == ' ' || c == ' ' ||
  c == '　' || c == '﻿'

/-- The two Unicode character classes the regex refers to. -/
structure EmojiClasses where
  isEP : Char → Bool
  isEmoji : Char → Bool

/-- The ways the unit `(\p{Emoji_Presentation}|\p{Emoji}️)` can consume a
prefix of `l`, as `(consumed, rest)` pairs in the order JavaScript tries the
alternatives. -/
def unitSplits (K : EmojiClasses) : List Char → List (List Char × List Char)
  | [] => []
  | c :: rest =>
    (if K.isEP c then [([c], rest)] else []) ++
    (match rest with
     | v :: rest2 => if K.isEmoji c && v == vs16Char then [([c, v], rest2)] else []
     | [] => [])

/-- Backtracking search for `(‍ unit)* \s` after the first unit: the
greedy star first tries to consume another `‍ unit` (each unit
alternative in order), and only when every deeper branch fails does it stop
and require a whitespace character.  `consumed` accumulates the overall match;
the result is `(match0, rest)`. -/
def matchTail (K : EmojiClasses) : Nat → List Char → List Char →
    Option (List Char × List Char)
  | 0, _, _ => none
  | fuel + 1, consumed, rest =>
    match rest with
    | [] => none
    | z :: r2 =>
      let deeper :=
        if z == zwjChar then
          (unitSplits K r2).findSome?
            (fun p => matchTail K fuel (consumed ++ z :: p.1) p.2)
        else none
      match deeper with
      | some res => some res
      | none => if isJsSpace z then some (consumed ++ [z], r2) else none

/-- `title.match(EMOJI_PREFIX_RE)` on the characters of the title: try each
way the first unit can match, then the star-and-whitespace tail.  Returns
`(match0, rest-of-title)` for the match the backtracking search finds. -/
def matchEmojiCore (K : EmojiClasses) (title : List Char) :
    Option (List Char × List Char) :=
  (unitSplits K title).findSome? (fun p => matchTail K title.length p.1 p.2)

/-- `String.prototype.trimEnd` on a character list. -/
def trimEndList (l : List Char) : List Char :=
  (l.reverse.dropWhile isJsSpace).reverse

/-- `extractEmojiPrefix(title)`: on a match, the emoji is `match[0]` with its
trailing whitespace trimmed and the name is the rest of the title
(`title.slice(match[0].length)`); otherwise the emoji is empty and the name is
the whole title. -/
def extractEmojiFn (K : EmojiClasses) (title : String) : String × String :=
  match matchEmojiCore K title.toList with
  | some (m, _) => (String.mk (trimEndList m), String.mk (title.toList.drop m.length))
  | none => ("", title)

/-- `buildFolderTitle(name, emoji)`: prepend the emoji and a space when the
emoji is non-empty (JS truthiness on a string). -/
def buildFolderTitle (name emoji : String) : String :=
  if emoji ≠ "" then emoji ++ " " ++ name else name

/-- The language of `(‍ unit)*`. -/
inductive TailSeq (K : EmojiClasses) : List Char → Prop where
  | nil : TailSeq K []
  | consEP {c : Char} {t : List Char} :
      K.isEP c = true → TailSeq K t → TailSeq K (zwjChar :: c :: t)
  | consVS {c : Char} {t : List Char} :
      K.isEmoji c = true → TailSeq K t → TailSeq K (zwjChar :: c :: vs16Char :: t)

/-- The language of the unit `(\p{Emoji_Presentation}|\p{Emoji}️)`. -/
def IsUnit (K : EmojiClasses) (u : List Char) : Prop :=
  (∃ c, K.isEP c = true ∧ u = [c]) ∨ (∃ c, K.isEmoji c = true ∧ u = [c, vs16Char])

/-- The language of the emoji part `unit (‍ unit)*` of the regex. -/
def IsEmojiSeq (K : EmojiClasses) (s : List Char) : Prop :=
  ∃ u t, IsUnit K u ∧ TailSeq K t ∧ s = u ++ t

theorem mem_unitSplits (K : EmojiClasses) (l : List Char)
    (p : List Char × List Char) (hp : p ∈ unitSplits K l) :
    l = p.1 ++ p.2 ∧ IsUnit K p.1 := by
  cases l with
  | nil => cases hp
  | cons c rest =>
    simp only [unitSplits] at hp
    rcases List.mem_append.mp hp with h | h
    · by_cases hc : K.isEP c
      · rw [if_pos hc] at h
        have : p = ([c], rest) := by simpa using h
        subst this
        exact ⟨rfl, Or.inl ⟨c, hc, rfl⟩⟩
      · rw [if_neg hc] at h; cases h
    · cases rest with
      | nil => cases h
      | cons v rest2 =>
        have h' : p ∈ (if K.isEmoji c && v == vs16Char
            then [([c, v], rest2)] else []) := h
        clear h
        rename' h' => h
        by_cases hv : K.isEmoji c && v == vs16Char
        · rw [if_pos hv] at h
          have : p = ([c, v], rest2) := by simpa using h
          subst this
          obtain ⟨h1, h2⟩ := Bool.and_eq_true_iff.mp hv
          have hveq : v = vs16Char := by simpa using h2
          subst hveq
          exact ⟨rfl, Or.inr ⟨c, h1, rfl⟩⟩
        · rw [if_neg hv] at h; cases h

theorem unitSplits_mem_of_isUnit (K : EmojiClasses) (u rest : List Char)
    (hu : IsUnit K u) : (u, rest) ∈ unitSplits K (u ++ rest) := by
  rcases hu with ⟨c, hc, rfl⟩ | ⟨c, hc, rfl⟩
  · rw [List.singleton_append]
    simp only [unitSplits]
    rw [if_pos hc]
    exact List.mem_append.mpr (Or.inl (by simp))
  · rw [List.cons_append, List.singleton_append]
    simp only [unitSplits]
    refine List.mem_append.mpr (Or.inr ?_)
    rw [if_pos (by simp [hc])]
    simp

theorem findSome?_isSome_of_mem {α β : Type} (l : List α) (f : α → Option β)
    (a : α) (ha : a ∈ l) (hf : (f a).isSome) : (l.findSome? f).isSome := by
  induction l with
  | nil => cases ha
  | cons x rest ih =>
    rw [List.findSome?_cons]
    cases hx : f x with
    | some b => rfl
    | none =>
      rcases List.mem_cons.mp ha with rfl | ha'
      · rw [hx] at hf; cases hf
      · exact ih ha'

theorem exists_of_findSome?_isSome {α β : Type} (l : List α) (f : α → Option β)
    (b : β) (h : l.findSome? f = some b) : ∃ a ∈ l, f a = some b := by
  induction l with
  | nil => cases h
  | cons x rest ih =>
    rw [List.findSome?_cons] at h
    cases hx : f x with
    | some c =>
      rw [hx] at h
      exact ⟨x, List.mem_cons_self x rest, hx.trans h⟩
    | none =>
      rw [hx] at h
      obtain ⟨a, ha, hfa⟩ := ih h
      exact ⟨a, List.mem_cons_of_mem _ ha, hfa⟩

theorem matchTail_sound (K : EmojiClasses) :
    ∀ (fuel : Nat) (consumed rest m r : List Char),
      matchTail K fuel consumed rest = some (m, r) →
      ∃ mid w, TailSeq K mid ∧ isJsSpace w = true ∧
        rest = mid ++ w :: r ∧ m = consumed ++ (mid ++ [w]) := by
  intro fuel
  induction fuel with
  | zero => intro consumed rest m r h; cases h
  | succ fuel ih =>
    intro consumed rest m r h
    cases rest with
    | nil => simp [matchTail] at h
    | cons z r2 =>
      simp only [matchTail] at h
      by_cases hz : (z == zwjChar) = true
      · rw [if_pos hz] at h
        have hzeq : z = zwjChar := by simpa using hz
        cases hdeep : (unitSplits K r2).findSome?
            (fun p => matchTail K fuel (consumed ++ z :: p.1) p.2) with
        | some res =>
          rw [hdeep] at h
          simp only [Option.some.injEq] at h
          subst h
          obtain ⟨p, hp, hmt⟩ := exists_of_findSome?_isSome _ _ _ hdeep
          obtain ⟨hr2, hu⟩ := mem_unitSplits K r2 p hp
          obtain ⟨mid', w, hmid', hw, hp2, hm⟩ := ih _ _ _ _ hmt
          refine ⟨z :: (p.1 ++ mid'), w, ?_, hw, ?_, ?_⟩
          · subst hzeq
            rcases hu with ⟨c, hc, hpc⟩ | ⟨c, hc, hpc⟩
            · rw [hpc, List.singleton_append]
              exact TailSeq.consEP hc hmid'
            · rw [hpc, List.cons_append, List.singleton_append]
              exact TailSeq.consVS hc hmid'
          · rw [hr2, hp2]
            simp [List.append_assoc]
          · rw [hm]
            simp [List.append_assoc]
        | none =>
          rw [hdeep] at h
          by_cases hws : isJsSpace z = true
          · rw [if_pos hws] at h
            obtain ⟨hm, hr⟩ := Prod.mk.inj (Option.some.inj h)
            subst hr
            exact ⟨[], z, TailSeq.nil, hws, by simp, by simp [hm.symm]⟩
          · rw [if_neg hws] at h; cases h
      · rw [if_neg hz] at h
        by_cases hws : isJsSpace z = true
        · rw [if_pos hws] at h
          obtain ⟨hm, hr⟩ := Prod.mk.inj (Option.some.inj h)
          subst hr
          exact ⟨[], z, TailSeq.nil, hws, by simp, by simp [hm.symm]⟩
        · rw [if_neg hws] at h; cases h

theorem matchCore_sound (K : EmojiClasses) (title m r : List Char)
    (h : matchEmojiCore K title = some (m, r)) :
    ∃ s w, IsEmojiSeq K s ∧ isJsSpace w = true ∧
      title = s ++ w :: r ∧ m = s ++ [w] := by
  obtain ⟨p, hp, hmt⟩ := exists_of_findSome?_isSome _ _ _ h
  obtain ⟨htitle, hu⟩ := mem_unitSplits K title p hp
  obtain ⟨mid, w, hmid, hw, hp2, hm⟩ := matchTail_sound K _ _ _ _ _ hmt
  refine ⟨p.1 ++ mid, w, ⟨p.1, mid, hu, hmid, rfl⟩, hw, ?_, ?_⟩
  · rw [htitle, hp2, List.append_assoc]
  · rw [hm]
    simp [List.append_assoc]

theorem space_not_zwj (w : Char) (hw : isJsSpace w = true) : (w == zwjChar) = false := by
  by_cases h : w = zwjChar
  · rw [h] at hw
    exact absurd hw (by decide)
  · simpa using h

theorem matchTail_cons_zwj (K : EmojiClasses) (f : Nat) (consumed r2 : List Char) :
    matchTail K (f + 1) consumed (zwjChar :: r2) =
      (unitSplits K r2).findSome?
        (fun p => matchTail K f (consumed ++ zwjChar :: p.1) p.2) := by
  simp only [matchTail]
  rw [if_pos (by simp)]
  cases (unitSplits K r2).findSome?
      (fun p => matchTail K f (consumed ++ zwjChar :: p.1) p.2) with
  | some res => rfl
  | none => simp [show isJsSpace zwjChar = false by decide]

theorem matchTail_cons_nonzwj (K : EmojiClasses) (f : Nat) (consumed : List Char)
    (w : Char) (r : List Char) (hnz : (w == zwjChar) = false) :
    matchTail K (f + 1) consumed (w :: r) =
      if isJsSpace w then some (consumed ++ [w], r) else none := by
  simp only [matchTail, hnz]
  rfl

theorem matchTail_complete (K : EmojiClasses) (mid : List Char)
    (hmid : TailSeq K mid) :
    ∀ (fuel : Nat) (consumed : List Char) (w : Char) (r : List Char),
      isJsSpace w = true → mid.length < fuel →
      (matchTail K fuel consumed (mid ++ w :: r)).isSome := by
  induction hmid with
  | nil =>
    intro fuel consumed w r hw hfuel
    cases fuel with
    | zero => simp at hfuel
    | succ f =>
      rw [List.nil_append, matchTail_cons_nonzwj K f consumed w r (space_not_zwj w hw),
        if_pos hw]
      rfl
  | @consEP c t hc htail ih =>
    intro fuel consumed w r hw hfuel
    cases fuel with
    | zero => simp at hfuel
    | succ f =>
      simp only [List.cons_append]
      rw [matchTail_cons_zwj]
      have hmem := unitSplits_mem_of_isUnit K [c] (t ++ w :: r) (Or.inl ⟨c, hc, rfl⟩)
      rw [List.singleton_append] at hmem
      refine findSome?_isSome_of_mem _ _ _ hmem ?_
      refine ih f _ w r hw ?_
      simp only [List.length_cons] at hfuel
      omega
  | @consVS c t hc htail ih =>
    intro fuel consumed w r hw hfuel
    cases fuel with
    | zero => simp at hfuel
    | succ f =>
      simp only [List.cons_append]
      rw [matchTail_cons_zwj]
      have hmem := unitSplits_mem_of_isUnit K [c, vs16Char] (t ++ w :: r)
        (Or.inr ⟨c, hc, rfl⟩)
      simp only [List.cons_append, List.singleton_append] at hmem
      refine findSome?_isSome_of_mem _ _ _ hmem ?_
      refine ih f _ w r hw ?_
      simp only [List.length_cons] at hfuel
      omega

theorem tailSeq_no_space (K : EmojiClasses)
    (hK : ∀ c, isJsSpace c = true → K.isEP c = false ∧ K.isEmoji c = false)
    {t : List Char} (ht : TailSeq K t) : ∀ c ∈ t, isJsSpace c = false := by
  induction ht with
  | nil => intro c hc; cases hc
  | @consEP c' t' hc' ht' ih =>
    intro c hmem
    rcases List.mem_cons.mp hmem with rfl | hmem'
    · decide
    · rcases List.mem_cons.mp hmem' with rfl | hmem''
      · by_cases hs : isJsSpace c = true
        · rw [(hK c hs).1] at hc'; cases hc'
        · simpa using hs
      · exact ih c hmem''
  | @consVS c' t' hc' ht' ih =>
    intro c hmem
    rcases List.mem_cons.mp hmem with rfl | hmem'
    · decide
    · rcases List.mem_cons.mp hmem' with rfl | hmem''
      · by_cases hs : isJsSpace c = true
        · rw [(hK c hs).2] at hc'; cases hc'
        · simpa using hs
      · rcases List.mem_cons.mp hmem'' with rfl | hmem3
        · decide
        · exact ih c hmem3

theorem emojiSeq_no_space (K : EmojiClasses)
    (hK : ∀ c, isJsSpace c = true → K.isEP c = false ∧ K.isEmoji c = false)
    {s : List Char} (hs : IsEmojiSeq K s) : ∀ c ∈ s, isJsSpace c = false := by
  obtain ⟨u, t, hu, ht, rfl⟩ := hs
  intro c hmem
  rcases List.mem_append.mp hmem with hmem | hmem
  · rcases hu with ⟨c', hc', rfl⟩ | ⟨c', hc', rfl⟩
    · have : c = c' := by simpa using hmem
      subst this
      by_cases hsp : isJsSpace c = true
      · rw [(hK c hsp).1] at hc'; cases hc'
      · simpa using hsp
    · rcases List.mem_cons.mp hmem with rfl | hmem'
      · by_cases hsp : isJsSpace c = true
        · rw [(hK c hsp).2] at hc'; cases hc'
        · simpa using hsp
      · have : c = vs16Char := by simpa using hmem'
        subst this
        decide
  · exact tailSeq_no_space K hK ht c hmem

theorem split_at_space_unique :
    ∀ (a b : List Char) (x y : Char) (r1 r2 : List Char),
      a ++ x :: r1 = b ++ y :: r2 →
      (∀ c ∈ a, isJsSpace c = false) → (∀ c ∈ b, isJsSpace c = false) →
      isJsSpace x = true → isJsSpace y = true →
      a = b ∧ x = y ∧ r1 = r2 := by
  intro a
  induction a with
  | nil =>
    intro b x y r1 r2 heq ha hb hx hy
    cases b with
    | nil =>
      rw [List.nil_append, List.nil_append] at heq
      obtain ⟨h1, h2⟩ := List.cons.inj heq
      exact ⟨rfl, h1, h2⟩
    | cons d b' =>
      rw [List.nil_append, List.cons_append] at heq
      obtain ⟨h1, -⟩ := List.cons.inj heq
      have := hb d (List.mem_cons_self _ _)
      rw [← h1, hx] at this
      cases this
  | cons e a' ih =>
    intro b x y r1 r2 heq ha hb hx hy
    cases b with
    | nil =>
      rw [List.nil_append, List.cons_append] at heq
      obtain ⟨h1, -⟩ := List.cons.inj heq
      have := ha e (List.mem_cons_self _ _)
      rw [h1, hy] at this
      cases this
    | cons d b' =>
      rw [List.cons_append, List.cons_append] at heq
      obtain ⟨h1, h2⟩ := List.cons.inj heq
      obtain ⟨hab, hxy, hr⟩ := ih b' x y r1 r2 h2
        (fun c hc => ha c (List.mem_cons_of_mem _ hc))
        (fun c hc => hb c (List.mem_cons_of_mem _ hc)) hx hy
      exact ⟨by rw [h1, hab], hxy, hr⟩

theorem matchCore_emoji_title (K : EmojiClasses) (emoji name : List Char)
    (hK : ∀ c, isJsSpace c = true → K.isEP c = false ∧ K.isEmoji c = false)
    (hseq : IsEmojiSeq K emoji) :
    matchEmojiCore K (emoji ++ ' ' :: name) = some (emoji ++ [' '], name) := by
  obtain ⟨u, t, hu, ht, hemoji⟩ := hseq
  have hu1 : 1 ≤ u.length := by
    rcases hu with ⟨c, _, rfl⟩ | ⟨c, _, rfl⟩ <;> simp
  have hisSome : (matchEmojiCore K (emoji ++ ' ' :: name)).isSome := by
    rw [matchEmojiCore]
    have hmem := unitSplits_mem_of_isUnit K u (t ++ ' ' :: name) hu
    have harr : u ++ (t ++ ' ' :: name) = emoji ++ ' ' :: name := by
      rw [hemoji, List.append_assoc]
    rw [harr] at hmem
    refine findSome?_isSome_of_mem _ _ _ hmem ?_
    refine matchTail_complete K t ht _ u ' ' name (by decide) ?_
    simp only [hemoji, List.length_append, List.length_cons]
    omega
  obtain ⟨p, hp⟩ := Option.isSome_iff_exists.mp hisSome
  obtain ⟨m, r⟩ := p
  obtain ⟨s, w, hsseq, hw, htitle, hm⟩ := matchCore_sound K _ m r hp
  have hnsE : ∀ c ∈ emoji, isJsSpace c = false :=
    emojiSeq_no_space K hK ⟨u, t, hu, ht, hemoji⟩
  have hnsS : ∀ c ∈ s, isJsSpace c = false := emojiSeq_no_space K hK hsseq
  obtain ⟨hse, hwsp, hrn⟩ :=
    split_at_space_unique emoji s ' ' w name r htitle hnsE hnsS (by decide) hw
  rw [hp, hm, ← hse, ← hwsp, ← hrn]

theorem dropWhile_eq_self_of_no_space (l : List Char)
    (h : ∀ c ∈ l, isJsSpace c = false) : l.dropWhile isJsSpace = l := by
  cases l with
  | nil => rfl
  | cons a t =>
    rw [List.dropWhile_cons, h a (List.mem_cons_self _ _)]
    simp

theorem string_toList_append (a b : String) :
    (a ++ b).toList = a.toList ++ b.toList := rfl

theorem string_mk_toList (s : String) : String.mk s.toList = s := rfl

/-- C10: for every non-empty emoji string in the language of the emoji-prefix
pattern (over any classes for which whitespace is never an emoji, as in
Unicode), and every name that does not itself begin with an emoji prefix,
extracting from the built folder title returns exactly that emoji and that
name; and with an empty emoji the built title is the name unchanged. -/
theorem emoji_title_roundtrip (K : EmojiClasses) (emoji name : String)
    (hK : ∀ c, isJsSpace c = true → K.isEP c = false ∧ K.isEmoji c = false)
    (hseq : IsEmojiSeq K emoji.toList)
    (_hname : matchEmojiCore K name.toList = none) :
    extractEmojiFn K (buildFolderTitle name emoji) = (emoji, name) ∧
    buildFolderTitle name "" = name := by
  refine ⟨?_, by simp [buildFolderTitle]⟩
  have hne : emoji ≠ "" := by
    obtain ⟨u, t, hu, ht, he⟩ := hseq
    intro hcon
    rw [hcon] at he
    have : u = [] := by
      cases u with
      | nil => rfl
      | cons a u' => cases he
    rcases hu with ⟨c, _, hc⟩ | ⟨c, _, hc⟩ <;> rw [hc] at this <;> cases this
  rw [buildFolderTitle, if_pos hne]
  have hlist : (emoji ++ " " ++ name).toList = emoji.toList ++ ' ' :: name.toList := by
    rw [string_toList_append, string_toList_append,
      show (" " : String).toList = [' '] from rfl,
      List.append_assoc, List.singleton_append]
  have hcore := matchCore_emoji_title K emoji.toList name.toList hK hseq
  simp only [extractEmojiFn, hlist, hcore]
  have hnsE : ∀ c ∈ emoji.toList, isJsSpace c = false := emojiSeq_no_space K hK hseq
  simp only [Prod.mk.injEq]
  refine ⟨?_, ?_⟩
  · have h1 : trimEndList (emoji.toList ++ [' ']) = emoji.toList := by
      have hsp : isJsSpace ' ' = true := by decide
      rw [trimEndList, List.reverse_append]
      simp only [List.reverse_singleton, List.singleton_append]
      rw [List.dropWhile_cons, hsp]
      simp only [if_true]
      rw [dropWhile_eq_self_of_no_space _
        (fun c hc => hnsE c (List.mem_reverse.mp hc))]
      exact List.reverse_reverse _
    rw [h1]
    exact string_mk_toList emoji
  · have h2 : List.drop (emoji.toList ++ [' ']).length
        (emoji.toList ++ ' ' :: name.toList) = name.toList := by
      have hsplit : emoji.toList ++ ' ' :: name.toList =
          (emoji.toList ++ [' ']) ++ name.toList := by
        rw [List.append_assoc, List.singleton_append]
      rw [hsplit, List.drop_left]
    rw [h2]
    exact string_mk_toList name

/-- A tiny concrete instance of the emoji character classes: the house emoji
`🏠` (U+1F3E0) has `Emoji_Presentation` in Unicode. -/
def houseEmojiClasses : EmojiClasses :=
  { isEP := fun c => c == '🏠', isEmoji := fun _ => false }

/-- C10 witness: the round trip evaluated on the emoji `🏠` and the name
`Personal`. -/
theorem emoji_title_roundtrip_witness :
    extractEmojiFn houseEmojiClasses (buildFolderTitle "Personal" "🏠") =
      ("🏠", "Personal") ∧
    buildFolderTitle "Personal" "" = "Personal" := by
  refine emoji_title_roundtrip houseEmojiClasses "🏠" "Personal" ?_ ?_ ?_
  · intro c hc
    refine ⟨?_, rfl⟩
    show (c == '🏠') = false
    by_cases h : c = '🏠'
    · subst h
      exact absurd hc (by decide)
    · simpa using h
  · exact ⟨['🏠'], [], Or.inl ⟨'🏠', rfl, rfl⟩, TailSeq.nil, rfl⟩
  · decide

/-- A title with no whitespace character can never match the emoji-prefix
regex, whatever the character classes: every match ends in a whitespace
character taken from the title. -/
theorem matchCore_none_of_no_space (K : EmojiClasses) (title : List Char)
    (h : ∀ c ∈ title, isJsSpace c = false) : matchEmojiCore K title = none := by
  cases hm : matchEmojiCore K title with
  | none => rfl
  | some p =>
    obtain ⟨m, r⟩ := p
    obtain ⟨s, w, _, hw, htitle, _⟩ := matchCore_sound K title m r hm
    have hmem : w ∈ title := by
      rw [htitle]
      exact List.mem_append.mpr (Or.inr (List.mem_cons_self _ _))
    rw [h w hmem] at hw
    cases hw

/-- On a whitespace-free title `extractEmojiPrefix` finds no emoji. -/
theorem extract_of_no_space (K : EmojiClasses) (title : String)
    (h : ∀ c ∈ title.toList, isJsSpace c = false) :
    extractEmojiFn K title = ("", title) := by
  rw [extractEmojiFn, matchCore_none_of_no_space K title.toList h]

/-! ## Folder reconciliation (`WorkspaceService._reconcileFolders`)

Root-container resolution is handled by the callers below; the two matching
passes are embedded here over the resolved root's child folders.  Folder
existence (`bookmarkService.get`) is a parameter, as is the id generator for
folders created as a last resort. -/

/-- A child folder of the root container, as seen by the reconciler. -/
structure Folder where
  id : String
  title : String
deriving DecidableEq, Repr

/-- JS object-key assignment `obj[k] = v` on an association list. -/
def setKey {β : Type} (l : List (String × β)) (k : String) (v : β) :
    List (String × β) :=
  if l.any (fun p => p.1 == k) then
    l.map (fun p => if p.1 == k then (k, v) else p)
  else l ++ [(k, v)]

/-- Mutable state threaded through the two reconciliation passes: the item
map, the local folder-id map, the claimed-folder set, the workspaces left
unmatched by pass 1, and the folder renames and creations performed. -/
structure RecState where
  items : List (String × WsRec)
  rootIds : List (String × Option String)
  claimed : List String
  unmatched : List String
  renames : List (String × String)
  creations : List (String × String × String)
  changed : Bool
deriving DecidableEq, Repr

/-- Name-match attempt of pass 1 for one workspace whose cached folder id did
not resolve: find the first unclaimed child folder whose title equals the
expected emoji-prefixed title, the plain name, or whose emoji-stripped title
equals the name; claim it, else record the workspace as unmatched. -/
def pass1Step (K : EmojiClasses) (localFolders : List Folder) (wsId : String)
    (ws : WsRec) (st : RecState) : RecState :=
  let expectedTitle := buildFolderTitle ws.name ws.emoji
  match localFolders.find? (fun c => !(st.claimed.contains c.id) &&
      (c.title == expectedTitle || c.title == ws.name ||
       (extractEmojiFn K c.title).2 == ws.name)) with
  | some c =>
    { st with
      items := setKey st.items wsId { ws with rootFolderId := some c.id },
      rootIds := setKey st.rootIds wsId (some c.id),
      claimed := st.claimed ++ [c.id],
      changed := true }
  | none => { st with unmatched := st.unmatched ++ [wsId] }

/-- Pass 1 of `_reconcileFolders`: keep still-valid cached folder ids (claim
them), otherwise match by name. -/
def pass1 (K : EmojiClasses) (folderExists : String → Bool)
    (localFolders : List Folder) : List String → RecState → RecState
  | [], st => st
  | wsId :: rest, st =>
    let next :=
      match st.items.lookup wsId with
      | none => st
      | some ws =>
        match ws.rootFolderId with
        | some f =>
          if folderExists f then { st with claimed := st.claimed ++ [f] }
          else pass1Step K localFolders wsId ws st
        | none => pass1Step K localFolders wsId ws st
    pass1 K folderExists localFolders rest next

/-- Pass 2 of `_reconcileFolders`: pair the workspaces left unmatched with the
still-unclaimed folders positionally, renaming the folder to the synced title;
only when no unclaimed folder remains is a new folder created (its id comes
from `mkFolderId` applied to the position). -/
def pass2 (K : EmojiClasses) (mkFolderId : Nat → String)
    (unclaimedFolders : List Folder) : Nat → List String → RecState → RecState
  | _, [], st => st
  | i, wsId :: rest, st =>
    let next :=
      match st.items.lookup wsId with
      | none => st
      | some ws =>
        match unclaimedFolders[i]? with
        | some folder =>
          { st with
            items := setKey st.items wsId { ws with rootFolderId := some folder.id },
            rootIds := setKey st.rootIds wsId (some folder.id),
            claimed := st.claimed ++ [folder.id],
            renames := st.renames ++ [(folder.id, buildFolderTitle ws.name ws.emoji)],
            changed := true }
        | none =>
          let newId := mkFolderId i
          { st with
            items := setKey st.items wsId { ws with rootFolderId := some newId },
            rootIds := setKey st.rootIds wsId (some newId),
            creations := st.creations ++
              [(wsId, newId, buildFolderTitle ws.name ws.emoji)],
            changed := true }
    pass2 K mkFolderId unclaimedFolders (i + 1) rest next

/-- The matching core of `_reconcileFolders`: pass 1 over the order, then the
positional pass 2 over the unmatched workspaces against the folders still
unclaimed after pass 1. -/
def reconcileFoldersCore (K : EmojiClasses) (folderExists : String → Bool)
    (mkFolderId : Nat → String) (localFolders : List Folder)
    (order : List String) (items : List (String × WsRec))
    (rootIds : List (String × Option String)) : RecState :=
  let st0 : RecState :=
    { items := items, rootIds := rootIds, claimed := [], unmatched := [],
      renames := [], creations := [], changed := false }
  let st1 := pass1 K folderExists localFolders order st0
  let unclaimed := localFolders.filter (fun c => !(st1.claimed.contains c.id))
  pass2 K mkFolderId unclaimed 0 st1.unmatched st1

/-- C4: two workspaces named `Personal` and `Work` whose cached folder ids do
not resolve, against local folders `Personal` and `OldWorkName`: `Personal`
binds to the folder `Personal` in the name-match pass, `Work` is left for the
positional pass, which binds it to `OldWorkName` and renames that folder to
`Work`; no folder is created.  The emoji classes and the fresh-folder id
generator are arbitrary. -/
theorem reconcile_name_then_position (K : EmojiClasses) (mkFolderId : Nat → String) :
    ((reconcileFoldersCore K (fun f => f == "f1" || f == "f2") mkFolderId
      [{ id := "f1", title := "Personal" }, { id := "f2", title := "OldWorkName" }]
      ["w1", "w2"]
      [("w1", { id := "w1", name := "Personal", rootFolderId := some "stale1" }),
       ("w2", { id := "w2", name := "Work", rootFolderId := some "stale2" })]
      []).items.lookup "w1").map WsRec.rootFolderId = some (some "f1") ∧
    ((reconcileFoldersCore K (fun f => f == "f1" || f == "f2") mkFolderId
      [{ id := "f1", title := "Personal" }, { id := "f2", title := "OldWorkName" }]
      ["w1", "w2"]
      [("w1", { id := "w1", name := "Personal", rootFolderId := some "stale1" }),
       ("w2", { id := "w2", name := "Work", rootFolderId := some "stale2" })]
      []).items.lookup "w2").map WsRec.rootFolderId = some (some "f2") ∧
    (reconcileFoldersCore K (fun f => f == "f1" || f == "f2") mkFolderId
      [{ id := "f1", title := "Personal" }, { id := "f2", title := "OldWorkName" }]
      ["w1", "w2"]
      [("w1", { id := "w1", name := "Personal", rootFolderId := some "stale1" }),
       ("w2", { id := "w2", name := "Work", rootFolderId := some "stale2" })]
      []).renames = [("f2", "Work")] ∧
    (reconcileFoldersCore K (fun f => f == "f1" || f == "f2") mkFolderId
      [{ id := "f1", title := "Personal" }, { id := "f2", title := "OldWorkName" }]
      ["w1", "w2"]
      [("w1", { id := "w1", name := "Personal", rootFolderId := some "stale1" }),
       ("w2", { id := "w2", name := "Work", rootFolderId := some "stale2" })]
      []).creations = [] := by
  have hext : extractEmojiFn K "OldWorkName" = ("", "OldWorkName") :=
    extract_of_no_space K "OldWorkName" (by decide)
  simp [reconcileFoldersCore, pass1, pass1Step, pass2, setKey, buildFolderTitle,
    hext, List.find?, List.lookup]

/-! ## Pinned-item reconciliation (`WorkspaceService._reconcilePinnedBookmarks`)

The browser bookmark store is modelled flat: a list of nodes with parent
links; a node is a folder iff it has no url.  `walkTree` over the fetched
subtree builds two JS `Map`s (url → node for links, title → node for folders
other than the workspace root); `Map.set` overwrites, so the maps are
association lists where a later visit shadows an earlier one (prepend, first
hit on lookup). -/

/-- A node of the external bookmark store. -/
structure BmNode where
  id : String
  parentId : String := ""
  title : String := ""
  url : Option String := none
deriving DecidableEq, Repr

/-- `bookmarkService.get(id)` (resolution against the local store). -/
def getNode (store : List BmNode) (nodeId : String) : Option BmNode :=
  store.find? (fun b => b.id == nodeId)

/-- `bookmarkService.getChildren(id)`: child nodes in store order. -/
def getChildren (store : List BmNode) (parentId : String) : List BmNode :=
  store.filter (fun b => b.parentId == parentId)

/-- JS truthiness of an optional string field. -/
def truthy (o : Option String) : Bool :=
  match o with
  | none => false
  | some s => s != ""

/-- Pre-order walk of the subtree rooted at the worklist's nodes: links go
into the url map, titled folders other than the workspace root go into the
title map; children are visited after their parent, so their entries shadow
earlier ones exactly like `Map.set`. -/
def walkGo (store : List BmNode) (rootFolderId : String) :
    Nat → List BmNode →
    List (String × BmNode) × List (String × BmNode) →
    List (String × BmNode) × List (String × BmNode)
  | 0, _, maps => maps
  | _ + 1, [], maps => maps
  | fuel + 1, node :: stack, maps =>
    let maps1 :=
      if truthy node.url then ((node.url.getD "", node) :: maps.1, maps.2)
      else if node.title != "" && node.id != rootFolderId then
        (maps.1, (node.title, node) :: maps.2)
      else maps
    walkGo store rootFolderId fuel (getChildren store node.id ++ stack) maps1

/-- The `localByUrl` and `localFoldersByTitle` maps built by `walkTree` from
the workspace's subtree (empty when the root folder does not resolve). -/
def walkMaps (store : List BmNode) (rootFolderId : String) :
    List (String × BmNode) × List (String × BmNode) :=
  match getNode store rootFolderId with
  | none => ([], [])
  | some root => walkGo store rootFolderId (store.length + 1) [root] ([], [])

/-- Fallback matching for a stale pinned entry: by url against the link map
when a url was recorded, else — for url-less folder entries with a title — by
title against the folder map. -/
def pinnedMatch (byUrl byTitle : List (String × BmNode)) (meta : PinMeta) :
    Option BmNode :=
  let m1 := if truthy meta.url then byUrl.lookup (meta.url.getD "") else none
  if m1.isNone && truthy meta.title && !(truthy meta.url) then
    byTitle.lookup (meta.title.getD "")
  else m1

/-- The per-entry body of the metadata loop: an entry whose id still resolves
is kept with refreshed url/title; otherwise a `pinnedMatch` hit is rewritten
to the live node's id, and no match drops the entry. -/
def reconcileEntry (store : List BmNode)
    (byUrl byTitle : List (String × BmNode)) (meta : PinMeta) :
    Option (String × PinMeta) :=
  match getNode store meta.id with
  | some existing =>
    some (meta.id, { id := meta.id, url := existing.url, title := some existing.title })
  | none =>
    match pinnedMatch byUrl byTitle meta with
    | some node =>
      some (node.id, { id := node.id, url := node.url, title := some node.title })
    | none => none

/-- The rebuilt `(pinnedBookmarkIds, pinnedBookmarks)` pair for one
workspace's metadata list. -/
def reconcilePinnedEntries (store : List BmNode)
    (byUrl byTitle : List (String × BmNode)) (pinnedMeta : List PinMeta) :
    List String × List PinMeta :=
  let res := pinnedMeta.filterMap (reconcileEntry store byUrl byTitle)
  (res.map Prod.fst, res.map Prod.snd)

theorem mem_of_lookup {β : Type} (l : List (String × β)) (k : String) (v : β)
    (h : l.lookup k = some v) : (k, v) ∈ l := by
  induction l with
  | nil => cases h
  | cons p rest ih =>
    obtain ⟨pk, pv⟩ := p
    by_cases hk : k = pk
    · subst hk
      simp [List.lookup] at h
      rw [← h]
      exact List.mem_cons_self _ _
    · have hk' : (k == pk) = false := by simpa using hk
      simp [List.lookup, hk'] at h
      exact List.mem_cons_of_mem _ (ih h)

theorem pinnedMatch_some (byUrl byTitle : List (String × BmNode)) (meta : PinMeta)
    (node : BmNode) (h : pinnedMatch byUrl byTitle meta = some node) :
    (∃ k, byUrl.lookup k = some node) ∨ (∃ k, byTitle.lookup k = some node) := by
  unfold pinnedMatch at h
  cases hu : truthy meta.url with
  | true =>
    simp [hu] at h
    exact Or.inl ⟨meta.url.getD "", h⟩
  | false =>
    simp [hu] at h
    cases ht : truthy meta.title with
    | true =>
      simp [ht] at h
      exact Or.inr ⟨meta.title.getD "", h⟩
    | false => simp [ht] at h

theorem reconcileEntry_id_eq (store : List BmNode)
    (byUrl byTitle : List (String × BmNode)) (meta : PinMeta)
    (p : String × PinMeta) (h : reconcileEntry store byUrl byTitle meta = some p) :
    p.2.id = p.1 := by
  unfold reconcileEntry at h
  cases hg : getNode store meta.id with
  | some existing =>
    rw [hg] at h
    obtain rfl := Option.some.inj h
    rfl
  | none =>
    rw [hg] at h
    cases hm : pinnedMatch byUrl byTitle meta with
    | some node =>
      rw [hm] at h
      obtain rfl := Option.some.inj h
      rfl
    | none => rw [hm] at h; cases h

theorem reconcileEntry_some_resolves (store : List BmNode)
    (byUrl byTitle : List (String × BmNode)) (meta : PinMeta)
    (p : String × PinMeta)
    (hU : ∀ q ∈ byUrl, (getNode store q.2.id).isSome)
    (hT : ∀ q ∈ byTitle, (getNode store q.2.id).isSome)
    (h : reconcileEntry store byUrl byTitle meta = some p) :
    (getNode store p.1).isSome := by
  unfold reconcileEntry at h
  cases hg : getNode store meta.id with
  | some existing =>
    rw [hg] at h
    obtain rfl := Option.some.inj h
    rw [hg]
    rfl
  | none =>
    rw [hg] at h
    cases hm : pinnedMatch byUrl byTitle meta with
    | none => rw [hm] at h; cases h
    | some node =>
      rw [hm] at h
      obtain rfl := Option.some.inj h
      rcases pinnedMatch_some byUrl byTitle meta node hm with ⟨k, hk⟩ | ⟨k, hk⟩
      · exact hU (k, node) (mem_of_lookup byUrl k node hk)
      · exact hT (k, node) (mem_of_lookup byTitle k node hk)

theorem reconcileEntry_url_match (store : List BmNode)
    (byUrl byTitle : List (String × BmNode)) (meta : PinMeta) (u : String)
    (node : BmNode) (hid : getNode store meta.id = none) (hu : meta.url = some u)
    (hne : u ≠ "") (hlk : byUrl.lookup u = some node) :
    reconcileEntry store byUrl byTitle meta =
      some (node.id, { id := node.id, url := node.url, title := some node.title }) := by
  unfold reconcileEntry
  rw [hid]
  have hm : pinnedMatch byUrl byTitle meta = some node := by
    unfold pinnedMatch
    simp [hu, truthy, hne, hlk]
  rw [hm]

theorem reconcileEntry_drop (store : List BmNode)
    (byUrl byTitle : List (String × BmNode)) (meta : PinMeta)
    (hid : getNode store meta.id = none)
    (hnu : ∀ u, meta.url = some u → byUrl.lookup u = none)
    (hnt : ∀ t, meta.title = some t → byTitle.lookup t = none) :
    reconcileEntry store byUrl byTitle meta = none := by
  unfold reconcileEntry
  rw [hid]
  have hm : pinnedMatch byUrl byTitle meta = none := by
    unfold pinnedMatch
    cases hu : truthy meta.url with
    | true =>
      cases hurl : meta.url with
      | none => rw [hurl] at hu; cases hu
      | some u =>
        rw [hurl] at hu
        simp only [truthy] at hu
        simp [hurl, truthy, hu, hnu u hurl]
    | false =>
      cases ht : truthy meta.title with
      | true =>
        cases htl : meta.title with
        | none => rw [htl] at ht; cases ht
        | some t =>
          rw [htl] at ht
          simp only [truthy] at ht
          simp [hu, htl, truthy, ht, hnt t htl]
      | false => simp [hu, ht]
  rw [hm]

/-- C5: for a workspace subtree's reconciliation maps (over any store in
which every mapped node still resolves, as the maps are built from live
nodes): a pinned entry whose id does not resolve but whose recorded url hits
a live link in the subtree's url map is rewritten to that link's current id;
an entry whose id does not resolve and whose url and title match nothing is
absent from the rebuilt list (its id appears in no surviving entry); and the
rebuilt id-only list equals the ids of the surviving metadata entries
one-to-one. -/
theorem pinned_reconciliation (store : List BmNode) (rootFolderId : String)
    (pinnedMeta : List PinMeta)
    (hU : ∀ q ∈ (walkMaps store rootFolderId).1, (getNode store q.2.id).isSome)
    (hT : ∀ q ∈ (walkMaps store rootFolderId).2, (getNode store q.2.id).isSome) :
    (∀ meta ∈ pinnedMeta, ∀ u node, getNode store meta.id = none →
      meta.url = some u → u ≠ "" →
      (walkMaps store rootFolderId).1.lookup u = some node →
      ({ id := node.id, url := node.url, title := some node.title } : PinMeta) ∈
        (reconcilePinnedEntries store (walkMaps store rootFolderId).1
          (walkMaps store rootFolderId).2 pinnedMeta).2) ∧
    (∀ meta ∈ pinnedMeta, getNode store meta.id = none →
      (∀ u, meta.url = some u → (walkMaps store rootFolderId).1.lookup u = none) →
      (∀ t, meta.title = some t → (walkMaps store rootFolderId).2.lookup t = none) →
      meta.id ∉ (reconcilePinnedEntries store (walkMaps store rootFolderId).1
          (walkMaps store rootFolderId).2 pinnedMeta).1) ∧
    (reconcilePinnedEntries store (walkMaps store rootFolderId).1
        (walkMaps store rootFolderId).2 pinnedMeta).1 =
      ((reconcilePinnedEntries store (walkMaps store rootFolderId).1
        (walkMaps store rootFolderId).2 pinnedMeta).2).map PinMeta.id := by
  refine ⟨?_, ?_, ?_⟩
  · intro meta hmem u node hid hu hne hlk
    have hentry := reconcileEntry_url_match store (walkMaps store rootFolderId).1
      (walkMaps store rootFolderId).2 meta u node hid hu hne hlk
    have hpair : (node.id,
        ({ id := node.id, url := node.url, title := some node.title } : PinMeta)) ∈
        pinnedMeta.filterMap (reconcileEntry store (walkMaps store rootFolderId).1
          (walkMaps store rootFolderId).2) :=
      List.mem_filterMap.mpr ⟨meta, hmem, hentry⟩
    exact List.mem_map.mpr ⟨_, hpair, rfl⟩
  · intro meta hmem hid hnu hnt hin
    obtain ⟨pair, hpair, hfst⟩ := List.mem_map.mp hin
    obtain ⟨meta', hmem', hent⟩ := List.mem_filterMap.mp hpair
    have hres := reconcileEntry_some_resolves store (walkMaps store rootFolderId).1
      (walkMaps store rootFolderId).2 meta' pair hU hT hent
    rw [hfst, hid] at hres
    cases hres
  · show (pinnedMeta.filterMap _).map Prod.fst =
      ((pinnedMeta.filterMap _).map Prod.snd).map PinMeta.id
    rw [List.map_map]
    refine List.map_congr_left ?_
    intro p hp
    obtain ⟨meta', _, hent⟩ := List.mem_filterMap.mp hp
    exact (reconcileEntry_id_eq store (walkMaps store rootFolderId).1
      (walkMaps store rootFolderId).2 meta' p hent).symm

/-- C5 witness: a pin whose id went stale but whose url `https://x` matches a
live link rewrites to that link's id `l1`; a pin with a url matching nothing
is dropped; the rebuilt id list mirrors the surviving metadata. -/
theorem pinned_reconciliation_witness :
    ({ id := "l1", url := some "https://x", title := some "X" } : PinMeta) ∈
      (reconcilePinnedEntries
        [{ id := "f1", parentId := "arc", title := "Personal" },
         { id := "l1", parentId := "f1", title := "X", url := some "https://x" }]
        (walkMaps
          [{ id := "f1", parentId := "arc", title := "Personal" },
           { id := "l1", parentId := "f1", title := "X", url := some "https://x" }] "f1").1
        (walkMaps
          [{ id := "f1", parentId := "arc", title := "Personal" },
           { id := "l1", parentId := "f1", title := "X", url := some "https://x" }] "f1").2
        [{ id := "stale1", url := some "https://x", title := some "X" },
         { id := "stale2", url := some "https://y" }]).2 ∧
    "stale2" ∉
      (reconcilePinnedEntries
        [{ id := "f1", parentId := "arc", title := "Personal" },
         { id := "l1", parentId := "f1", title := "X", url := some "https://x" }]
        (walkMaps
          [{ id := "f1", parentId := "arc", title := "Personal" },
           { id := "l1", parentId := "f1", title := "X", url := some "https://x" }] "f1").1
        (walkMaps
          [{ id := "f1", parentId := "arc", title := "Personal" },
           { id := "l1", parentId := "f1", title := "X", url := some "https://x" }] "f1").2
        [{ id := "stale1", url := some "https://x", title := some "X" },
         { id := "stale2", url := some "https://y" }]).1 ∧
    (reconcilePinnedEntries
        [{ id := "f1", parentId := "arc", title := "Personal" },
         { id := "l1", parentId := "f1", title := "X", url := some "https://x" }]
        (walkMaps
          [{ id := "f1", parentId := "arc", title := "Personal" },
           { id := "l1", parentId := "f1", title := "X", url := some "https://x" }] "f1").1
        (walkMaps
          [{ id := "f1", parentId := "arc", title := "Personal" },
           { id := "l1", parentId := "f1", title := "X", url := some "https://x" }] "f1").2
        [{ id := "stale1", url := some "https://x", title := some "X" },
         { id := "stale2", url := some "https://y" }]).1 =
      ((reconcilePinnedEntries
        [{ id := "f1", parentId := "arc", title := "Personal" },
         { id := "l1", parentId := "f1", title := "X", url := some "https://x" }]
        (walkMaps
          [{ id := "f1", parentId := "arc", title := "Personal" },
           { id := "l1", parentId := "f1", title := "X", url := some "https://x" }] "f1").1
        (walkMaps
          [{ id := "f1", parentId := "arc", title := "Personal" },
           { id := "l1", parentId := "f1", title := "X", url := some "https://x" }] "f1").2
        [{ id := "stale1", url := some "https://x", title := some "X" },
         { id := "stale2", url := some "https://y" }]).2).map PinMeta.id := by
  obtain ⟨h1, h2, h3⟩ :=
    pinned_reconciliation
      [{ id := "f1", parentId := "arc", title := "Personal" },
       { id := "l1", parentId := "f1", title := "X", url := some "https://x" }]
      "f1"
      [{ id := "stale1", url := some "https://x", title := some "X" },
       { id := "stale2", url := some "https://y" }]
      (by decide) (by decide)
  refine ⟨?_, ?_, h3⟩
  · exact h1 { id := "stale1", url := some "https://x", title := some "X" }
      (by decide) "https://x"
      { id := "l1", parentId := "f1", title := "X", url := some "https://x" }
      (by decide) (by decide) (by decide) (by decide)
  · refine h2 { id := "stale2", url := some "https://y" } (by decide) (by decide)
      ?_ ?_
    · intro u hu
      obtain rfl := Option.some.inj hu
      decide
    · intro t ht
      exact Option.noConfusion ht

/-! ## Recovery: orphan-folder adoption and `continueInit`
(`WorkspaceService._findBestArcSpacesRoot`, `_loadShortcutsFromBookmarks`,
`_adoptOrphanedBookmarkFolders`, `_validateFolders`, `continueInit`) -/

/-- One entry of the fixed `WORKSPACE_COLORS` palette. -/
structure ColorInfo where
  name : String
  color : String
  light : String
deriving DecidableEq, Repr

/-- The fixed 9-entry color palette. -/
def WORKSPACE_COLORS : List ColorInfo :=
  [{ name := "purple", color := "#7C5CFC", light := "#EDE9FE" },
   { name := "blue", color := "#3B82F6", light := "#DBEAFE" },
   { name := "cyan", color := "#06B6D4", light := "#CFFAFE" },
   { name := "green", color := "#22C55E", light := "#DCFCE7" },
   { name := "yellow", color := "#EAB308", light := "#FEF9C3" },
   { name := "orange", color := "#F97316", light := "#FFEDD5" },
   { name := "red", color := "#EF4444", light := "#FEE2E2" },
   { name := "pink", color := "#EC4899", light := "#FCE7F3" },
   { name := "grey", color := "#6B7280", light := "#F3F4F6" }]

/-- `WORKSPACE_COLORS[n % WORKSPACE_COLORS.length]`. -/
def colorAt (n : Nat) : ColorInfo :=
  WORKSPACE_COLORS.getD (n % WORKSPACE_COLORS.length)
    { name := "purple", color := "#7C5CFC", light := "#EDE9FE" }

/-- The sentinel title of the hidden shortcuts sub-folder. -/
def SHORTCUTS_FOLDER_NAME : String := "__shortcuts__"

/-- `_findBestArcSpacesRoot`: search for folders titled `Arc Spaces`; with one
candidate take it, with several score each by folder-children count (weight
1000) plus the number of children whose title matches a known workspace name,
keeping the first highest. -/
def findBestArcSpacesRoot (store : List BmNode) (order : List String)
    (items : List (String × WsRec)) : Option String :=
  let candidates := store.filter (fun b => !(truthy b.url) && b.title == "Arc Spaces")
  match candidates with
  | [] => none
  | [c] => some c.id
  | c0 :: rest =>
    let wsNames := (order.filterMap
      (fun wsId => (items.lookup wsId).map WsRec.name)).filter (fun n => n != "")
    let score := fun (c : BmNode) =>
      let folderChildren := (getChildren store c.id).filter (fun ch => !(truthy ch.url))
      folderChildren.length * 1000 +
        (folderChildren.filter (fun ch => wsNames.contains ch.title)).length
    let best := rest.foldl
      (fun b c => if score c > b.2 then (c.id, score c) else b) (c0.id, score c0)
    some best.1

/-- `_loadShortcutsFromBookmarks`: read the links of the `__shortcuts__`
sub-folder of a workspace folder back into a shortcuts list. -/
def loadShortcutsFromStore (store : List BmNode) (rootFolderId : String) :
    List Shortcut :=
  match (getChildren store rootFolderId).find?
      (fun c => !(truthy c.url) && c.title == SHORTCUTS_FOLDER_NAME) with
  | none => []
  | some folder =>
    ((getChildren store folder.id).filter (fun b => truthy b.url)).map
      (fun b => { url := b.url.getD "", title := b.title })

/-- Apply the bookmark-store side effects of folder reconciliation: renamed
folders get their new title, folders created as a last resort appear under the
root container.  (Timestamps are not modelled; created records carry 0.) -/
def applyRecToStore (store : List BmNode) (rootId : String) (st : RecState) :
    List BmNode :=
  (store.map (fun b =>
    match st.renames.lookup b.id with
    | some newTitle => { b with title := newTitle }
    | none => b)) ++
  st.creations.map (fun c => { id := c.2.1, parentId := rootId, title := c.2.2 })

/-- Loop body of `_adoptOrphanedBookmarkFolders` over the unclaimed folders:
each becomes a fresh workspace whose color continues the palette cycle from
`colorOffset` (the workspace count before adoption), whose emoji/name are
decoded from the folder title, and whose shortcuts are restored from the
`__shortcuts__` convention; the stripped record is written to sync. -/
def adoptGo (K : EmojiClasses) (genId : Nat → String) (store : List BmNode)
    (colorOffset : Nat) :
    Nat → List BmNode →
    List String × List (String × WsRec) × List (String × Option String) × List WriteOp →
    List String × List (String × WsRec) × List (String × Option String) × List WriteOp
  | _, [], acc => acc
  | i, folder :: rest, (order, items, rootIds, log) =>
    let wsId := genId i
    let colorInfo := colorAt (colorOffset + i)
    let ex := extractEmojiFn K folder.title
    let shortcuts := loadShortcutsFromStore store folder.id
    let workspace : WsRec :=
      { id := wsId, name := ex.2, emoji := ex.1, icon := "folder",
        color := colorInfo.color, colorScheme := colorInfo.name,
        pinnedBookmarks := [], shortcuts := shortcuts, created := 0 }
    adoptGo K genId store colorOffset (i + 1) rest
      (order ++ [wsId],
       setKey items wsId { workspace with rootFolderId := some folder.id },
       setKey rootIds wsId (some folder.id),
       log ++ [WriteOp.saveItem wsId (syncableItem workspace)])

/-- `_adoptOrphanedBookmarkFolders`: every subfolder of the root container not
claimed by a resolved workspace is promoted to a new workspace record, then
the meta (merged with the remote order) and local state are saved. -/
def adoptOrphans (K : EmojiClasses) (genId : Nat → String) (store : List BmNode)
    (arcRootId : Option String) (remote : Option (List String))
    (order : List String) (items : List (String × WsRec))
    (localState : LocalState) :
    List String × List (String × WsRec) × LocalState × List WriteOp :=
  let rootId :=
    match arcRootId with
    | some r => some r
    | none => findBestArcSpacesRoot store order items
  match rootId with
  | none => (order, items, localState, [])
  | some rid =>
    let subfolders := (getChildren store rid).filter (fun c => !(truthy c.url))
    if subfolders.isEmpty then (order, items, localState, [])
    else
      let claimedIds := order.filterMap
        (fun wsId => (items.lookup wsId).bind WsRec.rootFolderId)
      let unclaimed := subfolders.filter (fun f => !(claimedIds.contains f.id))
      if unclaimed.isEmpty then (order, items, localState, [])
      else
        let adopted := adoptGo K genId store order.length 0 unclaimed
          (order, items, localState.rootFolderIds, [])
        let saved := saveMetaModel adopted.1 remote false
        let newLocal : LocalState :=
          { activeWorkspaceId := localState.activeWorkspaceId,
            rootFolderIds := adopted.2.2.1 }
        (saved.1, adopted.2.1, newLocal,
         adopted.2.2.2 ++ [saved.2, WriteOp.saveLocal newLocal])

/-- `_reconcilePinnedBookmarks` over all workspaces: ensure the id cache is
populated from metadata, skip workspaces with nothing pinned or no resolvable
folder, rebuild ids/metadata through the subtree maps, and persist a workspace
item when something changed (an id went stale or the id count drifted); a
final local-state write happens when any workspace changed. -/
def reconcilePinnedAll (store : List BmNode) (order : List String)
    (items : List (String × WsRec)) (localState : LocalState) :
    List (String × WsRec) × List WriteOp :=
  let step := fun (acc : List (String × WsRec) × List WriteOp) (wsId : String) =>
    match acc.1.lookup wsId with
    | none => acc
    | some ws =>
      let pinnedMeta := ws.pinnedBookmarks
      let ids := ws.pinnedBookmarkIds.getD (pinnedMeta.map PinMeta.id)
      let withIds := setKey acc.1 wsId { ws with pinnedBookmarkIds := some ids }
      if pinnedMeta.isEmpty && ids.isEmpty then (withIds, acc.2)
      else
        match ws.rootFolderId with
        | none => (withIds, acc.2)
        | some rfid =>
          if (getNode store rfid).isNone then (withIds, acc.2)
          else
            let maps := walkMaps store rfid
            if pinnedMeta.isEmpty then
              let validIds := ids.filter (fun i => (getNode store i).isSome)
              let wsChanged := ids.any (fun i => (getNode store i).isNone)
              if wsChanged then
                let ws' := { ws with pinnedBookmarkIds := some validIds }
                (setKey acc.1 wsId ws',
                 acc.2 ++ [WriteOp.saveItem wsId (syncableItem ws')])
              else (withIds, acc.2)
            else
              let rebuilt := reconcilePinnedEntries store maps.1 maps.2 pinnedMeta
              let wsChanged := pinnedMeta.any (fun m => (getNode store m.id).isNone)
              if wsChanged || rebuilt.1.length != ids.length then
                let ws' :=
                  { ws with
                    pinnedBookmarkIds := some rebuilt.1
                    pinnedBookmarks := rebuilt.2 }
                (setKey acc.1 wsId ws',
                 acc.2 ++ [WriteOp.saveItem wsId (syncableItem ws')])
              else (withIds, acc.2)
  let res := order.foldl step (items, [])
  if res.2.isEmpty then res else (res.1, res.2 ++ [WriteOp.saveLocal localState])

/-- `_validateFolders`: prune order entries with no record; remove workspaces
whose assigned folder no longer exists (deleting their sync item, their local
map entry, fixing the active workspace); when anything was pruned the meta is
saved with `skipMerge` and the local state written; an order left empty would
re-run first-run setup (reported as a flag, not modelled further). -/
def validateFolders (store : List BmNode) (order : List String)
    (items : List (String × WsRec)) (localState : LocalState) :
    List String × List (String × WsRec) × LocalState × List WriteOp × Bool :=
  let step := fun (acc : List String × List (String × WsRec) ×
      List (String × Option String) × List String × Bool) (wsId : String) =>
    match acc.2.1.lookup wsId with
    | none => (acc.1.filter (fun x => x ≠ wsId), acc.2.1, acc.2.2.1, acc.2.2.2.1, true)
    | some ws =>
      match ws.rootFolderId with
      | none => acc
      | some fid =>
        if (getNode store fid).isSome then acc
        else
          (acc.1.filter (fun x => x ≠ wsId),
           acc.2.1.filter (fun p => p.1 ≠ wsId),
           acc.2.2.1.filter (fun p => p.1 ≠ wsId),
           acc.2.2.2.1 ++ [wsId], true)
  let folded := order.foldl step (order, items, localState.rootFolderIds, [], false)
  let newOrder := folded.1
  let newItems := folded.2.1
  let newRootIds := folded.2.2.1
  let deleted := folded.2.2.2.1
  let changed := folded.2.2.2.2
  if changed then
    if newOrder.isEmpty then (newOrder, newItems, localState, [], true)
    else
      let newActive :=
        match localState.activeWorkspaceId with
        | some a => if (newItems.lookup a).isSome then some a else newOrder.head?
        | none => newOrder.head?
      let newLocal : LocalState :=
        { activeWorkspaceId := newActive, rootFolderIds := newRootIds }
      (newOrder, newItems, newLocal,
       [WriteOp.saveMeta newOrder 2, WriteOp.saveLocal newLocal] ++
         deleted.map WriteOp.deleteItem, false)
  else (newOrder, newItems, localState, [], false)

/-- `continueInit()` after the reinstall prompt, starting from the loaded
replicated state: `_completeInit` (local-state fallback for the active
workspace, attaching local folder ids, folder reconciliation with
root-container resolution, pinned reconciliation, folder validation) followed
by `_adoptOrphanedBookmarkFolders`.  `newRootId` is the id a created root
container would get when none is found. -/
def continueInitModel (K : EmojiClasses) (mkFolderId : Nat → String)
    (genId : Nat → String) (newRootId : String) (store : List BmNode)
    (arcRootLocal : Option String) (remote : Option (List String))
    (order : List String) (items : List (String × WsRec))
    (localState : LocalState) :
    List String × List (String × WsRec) × LocalState × List WriteOp :=
  let active1 :=
    match localState.activeWorkspaceId with
    | some a => if (items.lookup a).isSome then some a else order.head?
    | none => order.head?
  let items1 := order.foldl (fun acc wsId =>
    match acc.lookup wsId, localState.rootFolderIds.lookup wsId with
    | some ws, some (some fid) => setKey acc wsId { ws with rootFolderId := some fid }
    | _, _ => acc) items
  let root :=
    match arcRootLocal with
    | some r =>
      if (getNode store r).isSome then r
      else (findBestArcSpacesRoot store order items1).getD newRootId
    | none => (findBestArcSpacesRoot store order items1).getD newRootId
  let localFolders := ((getChildren store root).filter (fun c => !(truthy c.url))).map
    (fun c => ({ id := c.id, title := c.title } : Folder))
  let recSt := reconcileFoldersCore K (fun f => (getNode store f).isSome) mkFolderId
    localFolders order items1 localState.rootFolderIds
  let store2 := applyRecToStore store root recSt
  let local1 : LocalState :=
    { activeWorkspaceId := active1, rootFolderIds := recSt.rootIds }
  let log1 := if recSt.changed then [WriteOp.saveLocal local1] else []
  let pinned := reconcilePinnedAll store2 order recSt.items local1
  let validated := validateFolders store2 order pinned.1 local1
  let adopted := adoptOrphans K genId store2 (some root) remote
    validated.1 validated.2.1 validated.2.2.1
  (adopted.1, adopted.2.1, adopted.2.2.1,
   log1 ++ pinned.2 ++ validated.2.2.2.1 ++ adopted.2.2.2)

set_option maxHeartbeats 3200000 in
/-- C7: reinstall recovery with one replicated workspace `Personal` and three
surviving non-empty folders `Personal`, `Developer`, `Germany` under the root
container: `continueInit` yields exactly the order
`[ws1, adopted1, adopted2]` — three workspaces — with `Personal` bound to its
folder and the two synthesized workspaces continuing the palette cycle with
`blue` and `cyan`. -/
theorem continueInit_reinstall_recovery (K : EmojiClasses)
    (mkFolderId : Nat → String) :
    (continueInitModel K mkFolderId
      (fun i => match i with | 0 => "wsA" | 1 => "wsB" | _ => "wsZ") "newroot"
      [{ id := "root", parentId := "other", title := "Arc Spaces" },
       { id := "f1", parentId := "root", title := "Personal" },
       { id := "f2", parentId := "root", title := "Developer" },
       { id := "f3", parentId := "root", title := "Germany" },
       { id := "l1", parentId := "f1", title := "A", url := some "https://a" },
       { id := "l2", parentId := "f2", title := "B", url := some "https://b" },
       { id := "l3", parentId := "f3", title := "C", url := some "https://c" }]
      none (some ["ws1"]) ["ws1"]
      [("ws1", { id := "ws1", name := "Personal", icon := "home",
                 color := "#7C5CFC", colorScheme := "purple" })]
      {}).1 = ["ws1", "wsA", "wsB"] ∧
    ((continueInitModel K mkFolderId
      (fun i => match i with | 0 => "wsA" | 1 => "wsB" | _ => "wsZ") "newroot"
      [{ id := "root", parentId := "other", title := "Arc Spaces" },
       { id := "f1", parentId := "root", title := "Personal" },
       { id := "f2", parentId := "root", title := "Developer" },
       { id := "f3", parentId := "root", title := "Germany" },
       { id := "l1", parentId := "f1", title := "A", url := some "https://a" },
       { id := "l2", parentId := "f2", title := "B", url := some "https://b" },
       { id := "l3", parentId := "f3", title := "C", url := some "https://c" }]
      none (some ["ws1"]) ["ws1"]
      [("ws1", { id := "ws1", name := "Personal", icon := "home",
                 color := "#7C5CFC", colorScheme := "purple" })]
      {}).2.1.lookup "ws1").map (fun ws => (ws.name, ws.rootFolderId)) =
        some ("Personal", some "f1") ∧
    ((continueInitModel K mkFolderId
      (fun i => match i with | 0 => "wsA" | 1 => "wsB" | _ => "wsZ") "newroot"
      [{ id := "root", parentId := "other", title := "Arc Spaces" },
       { id := "f1", parentId := "root", title := "Personal" },
       { id := "f2", parentId := "root", title := "Developer" },
       { id := "f3", parentId := "root", title := "Germany" },
       { id := "l1", parentId := "f1", title := "A", url := some "https://a" },
       { id := "l2", parentId := "f2", title := "B", url := some "https://b" },
       { id := "l3", parentId := "f3", title := "C", url := some "https://c" }]
      none (some ["ws1"]) ["ws1"]
      [("ws1", { id := "ws1", name := "Personal", icon := "home",
                 color := "#7C5CFC", colorScheme := "purple" })]
      {}).2.1.lookup "wsA").map (fun ws => (ws.name, ws.colorScheme)) =
        some ("Developer", "blue") ∧
    ((continueInitModel K mkFolderId
      (fun i => match i with | 0 => "wsA" | 1 => "wsB" | _ => "wsZ") "newroot"
      [{ id := "root", parentId := "other", title := "Arc Spaces" },
       { id := "f1", parentId := "root", title := "Personal" },
       { id := "f2", parentId := "root", title := "Developer" },
       { id := "f3", parentId := "root", title := "Germany" },
       { id := "l1", parentId := "f1", title := "A", url := some "https://a" },
       { id := "l2", parentId := "f2", title := "B", url := some "https://b" },
       { id := "l3", parentId := "f3", title := "C", url := some "https://c" }]
      none (some ["ws1"]) ["ws1"]
      [("ws1", { id := "ws1", name := "Personal", icon := "home",
                 color := "#7C5CFC", colorScheme := "purple" })]
      {}).2.1.lookup "wsB").map (fun ws => (ws.name, ws.colorScheme)) =
        some ("Germany", "cyan") := by
  have hD : extractEmojiFn K "Developer" = ("", "Developer") :=
    extract_of_no_space K "Developer" (by decide)
  have hG : extractEmojiFn K "Germany" = ("", "Germany") :=
    extract_of_no_space K "Germany" (by decide)
  simp [continueInitModel, reconcileFoldersCore, pass1, pass1Step, pass2,
    findBestArcSpacesRoot, getChildren, getNode, truthy, setKey,
    applyRecToStore, reconcilePinnedAll, validateFolders, adoptOrphans,
    adoptGo, colorAt, WORKSPACE_COLORS, loadShortcutsFromStore,
    SHORTCUTS_FOLDER_NAME, buildFolderTitle, saveMetaModel, mergeOrders,
    mergeGo, syncableItem, hD, hG, List.find?, List.lookup]

/-- C4 witness: the name-then-position scenario evaluated at concrete emoji
classes and folder-id generator. -/
theorem reconcile_name_then_position_witness :
    ((reconcileFoldersCore houseEmojiClasses (fun f => f == "f1" || f == "f2")
      (fun _ => "newf")
      [{ id := "f1", title := "Personal" }, { id := "f2", title := "OldWorkName" }]
      ["w1", "w2"]
      [("w1", { id := "w1", name := "Personal", rootFolderId := some "stale1" }),
       ("w2", { id := "w2", name := "Work", rootFolderId := some "stale2" })]
      []).items.lookup "w2").map WsRec.rootFolderId = some (some "f2") ∧
    (reconcileFoldersCore houseEmojiClasses (fun f => f == "f1" || f == "f2")
      (fun _ => "newf")
      [{ id := "f1", title := "Personal" }, { id := "f2", title := "OldWorkName" }]
      ["w1", "w2"]
      [("w1", { id := "w1", name := "Personal", rootFolderId := some "stale1" }),
       ("w2", { id := "w2", name := "Work", rootFolderId := some "stale2" })]
      []).renames = [("f2", "Work")] := by
  obtain ⟨-, h2, h3, -⟩ :=
    reconcile_name_then_position houseEmojiClasses (fun _ => "newf")
  exact ⟨h2, h3⟩

/-- C7 witness: the reinstall-recovery scenario evaluated at concrete emoji
classes and folder-id generator. -/
theorem continueInit_reinstall_recovery_witness :
    (continueInitModel houseEmojiClasses (fun _ => "newf")
      (fun i => match i with | 0 => "wsA" | 1 => "wsB" | _ => "wsZ") "newroot"
      [{ id := "root", parentId := "other", title := "Arc Spaces" },
       { id := "f1", parentId := "root", title := "Personal" },
       { id := "f2", parentId := "root", title := "Developer" },
       { id := "f3", parentId := "root", title := "Germany" },
       { id := "l1", parentId := "f1", title := "A", url := some "https://a" },
       { id := "l2", parentId := "f2", title := "B", url := some "https://b" },
       { id := "l3", parentId := "f3", title := "C", url := some "https://c" }]
      none (some ["ws1"]) ["ws1"]
      [("ws1", { id := "ws1", name := "Personal", icon := "home",
                 color := "#7C5CFC", colorScheme := "purple" })]
      {}).1 = ["ws1", "wsA", "wsB"] ∧
    ((continueInitModel houseEmojiClasses (fun _ => "newf")
      (fun i => match i with | 0 => "wsA" | 1 => "wsB" | _ => "wsZ") "newroot"
      [{ id := "root", parentId := "other", title := "Arc Spaces" },
       { id := "f1", parentId := "root", title := "Personal" },
       { id := "f2", parentId := "root", title := "Developer" },
       { id := "f3", parentId := "root", title := "Germany" },
       { id := "l1", parentId := "f1", title := "A", url := some "https://a" },
       { id := "l2", parentId := "f2", title := "B", url := some "https://b" },
       { id := "l3", parentId := "f3", title := "C", url := some "https://c" }]
      none (some ["ws1"]) ["ws1"]
      [("ws1", { id := "ws1", name := "Personal", icon := "home",
                 color := "#7C5CFC", colorScheme := "purple" })]
      {}).2.1.lookup "wsA").map (fun ws => (ws.name, ws.colorScheme)) =
        some ("Developer", "blue") := by
  obtain ⟨h1, -, h3, -⟩ :=
    continueInit_reinstall_recovery houseEmojiClasses (fun _ => "newf")
  exact ⟨h1, h3⟩

end ArcSpaces
